import Mathlib

/-!
# Poll bot: command parsing, store-response decoding and reply rendering

A verification development for `src/bot/main.go`.

Go strings are byte sequences, and the code indexes and compares bytes
(`text[index] == ' '`), so a Go `string` is modelled as the list of its bytes,
each byte a natural number.  Go slices of strings are lists.  A dynamically
typed value (`interface{}`) decoded from the store is a `Value`.  A handler
returns a reply, returns an error, or stops with a run-time panic.  The Go type
`int` is 64 bits wide, as on the 64-bit platforms the bot is built for; an
unsigned 64-bit value is a natural number below `2^64`.

The standard library functions that the code calls (`strings.TrimSpace`,
`strings.Split`, `strconv.ParseUint`, `strconv.Atoi`, the `%d`, `%s` and `%v`
verbs of `fmt`) are given by their documented behaviour on bytes.
-/

namespace VoteBot

/-! ## Strings -/

/-- A Go `string`: its bytes in order, each byte a natural number below 256. -/
abbrev GoString := List Nat

/-- UTF-8 bytes of one code point (what the Go compiler stores for a character of a literal). -/
def utf8EncodeRune (c : Nat) : GoString :=
  if c < 0x80 then [c]
  else if c < 0x800 then [0xC0 + c / 64, 0x80 + c % 64]
  else if c < 0x10000 then [0xE0 + c / 4096, 0x80 + c / 64 % 64, 0x80 + c % 64]
  else [0xF0 + c / 262144, 0x80 + c / 4096 % 64, 0x80 + c / 64 % 64, 0x80 + c % 64]

/-- The bytes of a string literal. -/
def utf8 (s : String) : GoString :=
  s.toList.flatMap fun c => utf8EncodeRune c.toNat

/-! ## Quoted-argument tokenizer (`parseToken`, `parsePoll`) -/

/-- The loop `for index < len(text) && p(text[index]) { index++ }`, run for at most `fuel`
iterations; `parseToken` runs it with `len(text) - index` iterations, which the loop never
exceeds (`advanceWhile_eq`). -/
def advanceWhile (p : Nat → Bool) (text : GoString) : Nat → Nat → Nat
  | 0, index => index
  | fuel + 1, index =>
    if index < text.length ∧ p (text.getD index 0) = true then
      advanceWhile p text fuel (index + 1)
    else index

/-- Function `parseToken(index, text)`: skip spaces, step over one byte (the opening delimiter,
which is not inspected), scan to the next double quote; the sentinel `-1` when there is none. -/
def parseToken (index : Nat) (text : GoString) : GoString × Int :=
  let index := advanceWhile (fun c => c == 32) text (text.length - index) index
  let index := index + 1
  let start := index
  let index := advanceWhile (fun c => c != 34) text (text.length - index) index
  if index ≥ text.length then ([], -1)
  else ((text.drop start).take (index - start), (index : Int) + 1)

/-- The loop `for index != -1 { ... }` of `parsePoll`, with the loop variables as arguments.
Every iteration moves `index` forward by at least two bytes, so `len(text) + 1` iterations are
never used up (`parsePoll_eq_tokens`). -/
def parsePollLoop (text : GoString) :
    Nat → Int → GoString → List GoString → GoString × List GoString
  | 0, _, question, options => (question, options)
  | fuel + 1, index, question, options =>
    if index = -1 then (question, options)
    else if index = 0 then
      let r := parseToken 0 text
      parsePollLoop text fuel r.2 r.1 options
    else
      let r := parseToken index.toNat text
      if r.2 = -1 then (question, options)
      else parsePollLoop text fuel r.2 question (options ++ [r.1])

/-- Function `parsePoll(text)`: the question and the options (a nil slice is the empty list). -/
def parsePoll (text : GoString) : GoString × List GoString :=
  parsePollLoop text (text.length + 1) 0 [] []

/-- One `parseToken` step seen on the text that starts at `index`: the token and the text that
follows its closing quote, or `none` for the sentinel. -/
def tokenAt (s : GoString) : Option (GoString × GoString) :=
  match ((s.dropWhile (fun c => c == 32)).drop 1).dropWhile (fun c => c != 34) with
  | [] => none
  | _ :: rest =>
    some (((s.dropWhile (fun c => c == 32)).drop 1).takeWhile (fun c => c != 34), rest)

/-- All tokens that repeated `parseToken` steps return from `s` on. -/
def tokens (s : GoString) : List GoString :=
  match h : tokenAt s with
  | none => []
  | some (t, rest) => t :: tokens rest
termination_by s.length
decreasing_by
  simp_wf
  unfold tokenAt at h
  split at h
  · cases h
  · rename_i c r heq
    simp only [Option.some.injEq, Prod.mk.injEq] at h
    have h1 := (List.dropWhile_suffix (fun c => c != 34) :
      ((s.dropWhile (fun c => c == 32)).drop 1).dropWhile (fun c => c != 34) <:+ _).length_le
    have h2 := (List.dropWhile_suffix (fun c => c == 32) :
      s.dropWhile (fun c => c == 32) <:+ s).length_le
    rw [heq] at h1
    simp only [List.length_cons, List.length_drop] at h1
    rw [← h.2]
    omega

/-- A token between double quotes. -/
def quoted (t : GoString) : GoString := 34 :: (t ++ [34])

/-- A run of `n` space characters. -/
def spaces (n : Nat) : GoString := List.replicate n 32

/-- The quoted options of a poll command, each preceded by its own number of spaces. -/
def optionsText (opts : List (Nat × GoString)) : GoString :=
  opts.flatMap fun o => spaces o.1 ++ quoted o.2

/-- A well-formed poll command: `pre` spaces, the quoted question, the quoted options each
after its own number of spaces. -/
def pollText (pre : Nat) (q : GoString) (opts : List (Nat × GoString)) : GoString :=
  spaces pre ++ quoted q ++ optionsText opts

/-- Function `strings.Split(s, sep)` for a one-byte separator. -/
def Split (sep : Nat) : GoString → List GoString
  | [] => [[]]
  | c :: s =>
    if c = sep then [] :: Split sep s
    else
      match Split sep s with
      | [] => [[c]]
      | t :: ts => (c :: t) :: ts

/-- The pieces at odd positions (2nd, 4th, ...) of a split at the double quotes: the substrings
between the 1st and 2nd, the 3rd and 4th, ... quote characters. -/
def insidePieces : List GoString → List GoString
  | _ :: b :: rest => b :: insidePieces rest
  | _ => []

/-- The pieces at even positions (1st, 3rd, ...) of a split at the double quotes: the text
outside the quotes. -/
def outsidePieces : List GoString → List GoString
  | a :: _ :: rest => a :: outsidePieces rest
  | l => l

/-- The substrings of `text` lying strictly between the 1st and 2nd, 3rd and 4th, ... double
quote. -/
def quoteSegments (text : GoString) : List GoString := insidePieces (Split 34 text)

/-- The stretches of `text` outside the quote pairs. -/
def outsideText (text : GoString) : List GoString := outsidePieces (Split 34 text)

/-! ## Numbers and white space (`strconv`, `fmt`, `strings.TrimSpace`) -/

/-- The digit loop of `strconv.FormatUint(u, 10)`: the decimal digits of `u` are put in front
of `acc`, the last digit first.  `fuel` bounds the iterations; `u + 1` is always enough. -/
def formatBits : Nat → Nat → GoString → GoString
  | 0, _, acc => acc
  | fuel + 1, u, acc =>
    if u < 10 then (48 + u) :: acc
    else formatBits fuel (u / 10) ((48 + u % 10) :: acc)

/-- The decimal numeral of an unsigned integer: `%d` of a `uint64`, `strconv.FormatUint`. -/
def FormatUint (u : Nat) : GoString := formatBits (u + 1) u []

/-- The decimal numeral of a signed integer: `%d` of an `int`, `fmt.Sprint` of an `int`. -/
def FormatInt (i : Int) : GoString :=
  if i < 0 then 45 :: FormatUint (-i).toNat else FormatUint i.toNat

/-- The digit loop of `strconv.ParseUint(s, 10, 64)` from the accumulator `n`: a byte that is
not a decimal digit is a syntax error, a value above `2^64 - 1` a range error (both `none`). -/
def parseUintLoop : Nat → GoString → Option Nat
  | n, [] => some n
  | n, c :: s =>
    if 48 ≤ c ∧ c ≤ 57 then
      if n ≥ (2 ^ 64 - 1) / 10 + 1 then none
      else
        let n10 := n * 10 % 2 ^ 64
        let n1 := (n10 + (c - 48)) % 2 ^ 64
        if n1 < n10 ∨ n1 > 2 ^ 64 - 1 then none
        else parseUintLoop n1 s
    else none

/-- Function `strconv.ParseUint(s, 10, 64)`: the value, or `none` when it returns an error. -/
def ParseUint (s : GoString) : Option Nat :=
  if s = [] then none else parseUintLoop 0 s

/-- Function `strconv.Atoi(s)` with a 64-bit `int`: an optional sign, then `ParseUint` on the
rest, then the range check of `ParseInt`; `none` when it returns an error. -/
def Atoi (s : GoString) : Option Int :=
  match s with
  | [] => none
  | c :: rest =>
    let neg := decide (c = 45)
    let body := if c = 43 ∨ c = 45 then rest else s
    match ParseUint body with
    | none => none
    | some un =>
      if neg = false ∧ un ≥ 2 ^ 63 then none
      else if neg = true ∧ un > 2 ^ 63 then none
      else some (if neg then -(un : Int) else (un : Int))

/-- The conversion `int(val)` of a `uint64` (64-bit `int`): values from `2^63` on wrap to
negative numbers. -/
def intOfUint64 (val : Nat) : Int :=
  if val % 2 ^ 64 < 2 ^ 63 then ((val % 2 ^ 64 : Nat) : Int)
  else ((val % 2 ^ 64 : Nat) : Int) - 2 ^ 64

/-- The UTF-8 encodings of the characters that `unicode.IsSpace` accepts: tab, line feed,
vertical tab, form feed, carriage return, space, U+0085, U+00A0, U+1680, U+2000 to U+200A,
U+2028, U+2029, U+202F, U+205F and U+3000. -/
def spaceEncodings : List GoString :=
  [[9], [10], [11], [12], [13], [32], [0xC2, 0x85], [0xC2, 0xA0], [0xE1, 0x9A, 0x80],
   [0xE2, 0x80, 0x80], [0xE2, 0x80, 0x81], [0xE2, 0x80, 0x82], [0xE2, 0x80, 0x83],
   [0xE2, 0x80, 0x84], [0xE2, 0x80, 0x85], [0xE2, 0x80, 0x86], [0xE2, 0x80, 0x87],
   [0xE2, 0x80, 0x88], [0xE2, 0x80, 0x89], [0xE2, 0x80, 0x8A], [0xE2, 0x80, 0xA8],
   [0xE2, 0x80, 0xA9], [0xE2, 0x80, 0xAF], [0xE2, 0x81, 0x9F], [0xE3, 0x80, 0x80]]

/-- Length of the member of `encs` that `s` starts with, 0 when there is none. -/
def leadWidth (encs : List GoString) (s : GoString) : Nat :=
  match encs.find? (fun e => e.isPrefixOf s) with
  | some e => e.length
  | none => 0

/-- Repeatedly drop a leading member of `encs`; `fuel` bounds the iterations, and the length
of the text is always enough. -/
def stripLeading (encs : List GoString) : Nat → GoString → GoString
  | 0, s => s
  | fuel + 1, s =>
    if leadWidth encs s = 0 then s
    else stripLeading encs fuel (s.drop (leadWidth encs s))

/-- Function `strings.TrimSpace(s)`: `s` without its leading and trailing white space
characters.  The trailing ones are removed on the reversed text. -/
def TrimSpace (s : GoString) : GoString :=
  let t := stripLeading spaceEncodings s.length s
  (stripLeading (spaceEncodings.map List.reverse) t.length t.reverse).reverse

/-- Function `parseVote(text)`: poll id, option index and the error message (`none` for a
nil error). -/
def parseVote (text : GoString) : Nat × Int × Option GoString :=
  let parsed := Split 32 (TrimSpace text)
  if parsed.length ≠ 2 then (0, -1, some (utf8 "invalid input format"))
  else
    match ParseUint (parsed.getD 0 []) with
    | none => (0, -1, some (utf8 "invalid poll ID"))
    | some pollID =>
      match Atoi (parsed.getD 1 []) with
      | none => (0, -1, some (utf8 "invalid option index"))
      | some optionIndex => (pollID, optionIndex, none)

/-- Function `formatOptions(options)`; `i` is the loop index. -/
def formatOptionsFrom : Nat → List GoString → GoString
  | _, [] => []
  | i, opt :: rest =>
    FormatInt ((i : Int) + 1) ++ utf8 ". `" ++ opt ++ utf8 "`\n" ++ formatOptionsFrom (i + 1) rest

/-- Function `formatOptions(options)`. -/
def formatOptions (options : List GoString) : GoString := formatOptionsFrom 0 options

/-! ## Store responses and handlers -/

/-- A dynamically typed Go value (`interface{}`): what the store connector decodes a response
into, and what is passed as a call argument.  The type tests of the code tell apart `nil`,
`uint64`, `string`, `bool`, `[]interface{}` and `map[interface{}]interface{}`; every other
dynamic type fails all of them, as `int64`, `int`, `float64` and `[]string` do here. -/
inductive Value where
  | nil
  | bool (b : Bool)
  | uint64 (n : Nat)
  | int64 (i : Int)
  | int (i : Int)
  | float64 (bits : Nat)
  | str (s : GoString)
  | strings (xs : List GoString)
  | array (items : List Value)
  | map (entries : List (Value × Value))

/-- The test `v == nil` on an interface value. -/
def Value.isNil : Value → Bool
  | .nil => true
  | _ => false

/-- The fields of `CommandRequest`. -/
structure CommandRequest where
  Token : GoString
  TeamID : GoString
  TeamDomain : GoString
  ChannelID : GoString
  ChannelName : GoString
  UserID : GoString
  UserName : GoString
  Command : GoString
  Text : GoString
  ResponseURL : GoString
  TriggerID : GoString

/-- One remote call `b.tarantool.Call(name, args)`. -/
structure RpcCall where
  name : GoString
  args : List Value

/-- The poll store as the handlers see it: a call gives `resp.Data` (the outcome slots), or a
transport error with its message. -/
abbrev Tarantool := RpcCall → Except GoString (List Value)

/-- The error values the handlers build. -/
inductive GoError where
  /-- The error `fmt.Errorf("Tarantool error: %v", err)`. -/
  | tarantool (cause : GoString)
  /-- The error `fmt.Errorf("%v", v)`. -/
  | ofValue (v : Value)
  /-- An error with the given message. -/
  | message (text : GoString)

/-- What a handler call ends with. -/
inductive HandlerResult where
  /-- The handler returns `(text, nil)`. -/
  | reply (text : GoString)
  /-- The handler returns `("", err)`. -/
  | failure (err : GoError)
  /-- A run-time panic: index out of range or a failed type assertion. -/
  | panic

/-- A handler run: the remote calls it issued, in order, and how it ended. -/
structure HandlerRun where
  calls : List RpcCall
  result : HandlerResult

/-- The marker that starts every rejection reply (the literal of the source file). -/
def failureMarker : GoString := utf8 "‚ùå"

/-- The block that `handleVote`, `handleGetPoll`, `handleClosePoll` and `handleDeletePoll`
repeat after a successful call: `if len(resp.Data) >= 2 && resp.Data[1] != nil { ... }`.
The result is `none` when the condition is false. -/
def rejection (data : List Value) : Option HandlerResult :=
  if 2 ≤ data.length ∧ (data.getD 1 Value.nil).isNil = false then
    match data.getD 1 Value.nil with
    | .array [] => some .panic
    | .array (.str respErr :: _) => some (.reply (failureMarker ++ 32 :: respErr))
    | .array (_ :: _) => some .panic
    | _ => some (.reply (failureMarker ++ [32]))
  else none

/-- Method `handlePoll`. -/
def handlePoll (call : Tarantool) (req : CommandRequest) : HandlerRun :=
  let question := (parsePoll req.Text).1
  let options := (parsePoll req.Text).2
  if question = [] then
    ⟨[], .reply (failureMarker ++ utf8
      " Poll question cannot be empty. Usage: /poll \"Question\" \"Option1\" \"Option2\" ...")⟩
  else if options = [] then
    ⟨[], .reply (failureMarker ++ utf8 " Options required")⟩
  else
    let c : RpcCall := ⟨utf8 "create_poll",
      [.str req.UserID, .str req.ChannelID, .str question, .strings options]⟩
    ⟨[c],
      match call c with
      | .error err => .failure (.tarantool err)
      | .ok data =>
        if 2 ≤ data.length ∧ (data.getD 1 Value.nil).isNil = false then
          .failure (.ofValue (data.getD 1 Value.nil))
        else
          let created := fun (pollID : Nat) =>
            HandlerResult.reply (utf8 "\uF8FFüó≥Ô∏è *Poll Created* (ID: `" ++ FormatUint pollID
              ++ utf8 "`)\n\n**`" ++ question ++ utf8 "`**\n" ++ formatOptions options
              ++ utf8 "\n")
          match data with
          | [] => .panic
          | .array [] :: _ => .panic
          | .array (.uint64 v :: _) :: _ => created v
          | .array (_ :: _) :: _ => .panic
          | _ :: _ => created 0⟩

/-- Method `handleVote`. -/
def handleVote (call : Tarantool) (req : CommandRequest) : HandlerRun :=
  match parseVote req.Text with
  | (_, _, some err) => ⟨[], .reply (failureMarker ++ utf8 " " ++ err)⟩
  | (pollID, optionIndex, none) =>
    let c : RpcCall := ⟨utf8 "vote",
      [.uint64 pollID, .str req.UserID, .int optionIndex, .str req.ChannelID]⟩
    ⟨[c],
      match call c with
      | .error err => .failure (.tarantool err)
      | .ok data =>
        match rejection data with
        | some r => r
        | none =>
          .reply (utf8 "Successfully voted for option " ++ FormatInt optionIndex
            ++ utf8 " in the poll " ++ FormatUint pollID)⟩

/-- The `poll` struct that `handleGetPoll` decodes into.  A `map[string]int` is the list of its
assignments, the latest first. -/
structure Poll where
  ID : Nat
  Question : GoString
  Options : List GoString
  Votes : List (GoString × Int)
  Active : Bool

/-- A read `votes[key]` of a `map[string]int`: the zero value when the key is missing. -/
def votesAt (votes : List (GoString × Int)) (key : GoString) : Int :=
  match votes.lookup key with
  | some v => v
  | none => 0

/-- The loop of `handleGetPoll` over the options; `i` is the loop index. -/
def decodeOptions : Nat → List Value → Except GoError (List GoString)
  | _, [] => .ok []
  | i, .str s :: rest =>
    match decodeOptions (i + 1) rest with
    | .ok ss => .ok (s :: ss)
    | .error e => .error e
  | i, _ :: _ => .error (.message (utf8 "invalid option type at index " ++ FormatInt i))

/-- The loop of `handleGetPoll` over the votes map, entry by entry; `votes` is `poll.Votes`
so far.  `none` is the return with the error "invalid vote data". -/
def decodeVotes : List (Value × Value) → List (GoString × Int) → Option (List (GoString × Int))
  | [], votes => some votes
  | (.str key, .uint64 val) :: rest, votes => decodeVotes rest ((key, intOfUint64 val) :: votes)
  | _ :: _, _ => none

/-- The loop of `handleGetPoll` that writes one line per option; `i` is the loop index. -/
def optionLines (votes : List (GoString × Int)) : Nat → List GoString → GoString
  | _, [] => []
  | i, option :: rest =>
    FormatInt ((i : Int) + 1) ++ utf8 ". `" ++ option ++ utf8 "` - "
      ++ FormatInt (votesAt votes (FormatInt ((i : Int) + 1))) ++ utf8 " votes\n"
      ++ optionLines votes (i + 1) rest

/-- The text that `handleGetPoll` builds from the decoded poll. -/
def renderPoll (poll : Poll) : GoString :=
  utf8 "\uF8FFüìä Poll (ID `" ++ FormatUint poll.ID ++ utf8 "`)\n"
    ++ (if poll.Active then utf8 "‚úÖ Active" else utf8 "‚ùå Closed") ++ utf8 "\n"
    ++ utf8 "\n"
    ++ utf8 "`" ++ poll.Question ++ utf8 "`\n"
    ++ optionLines poll.Votes 0 poll.Options

/-- The part of `handleGetPoll` after the rejection block: decode `resp.Data[0]` and render. -/
def decodePoll (data : List Value) : HandlerResult :=
  match data with
  | [] => .panic
  | .array pollData :: _ =>
    if pollData.length < 10 then .failure (.message (utf8 "Invalid poll data format"))
    else
      let id : Nat := match pollData.getD 0 Value.nil with
        | .uint64 v => v
        | _ => 0
      match pollData.getD 1 Value.nil with
      | .str question =>
        match pollData.getD 7 Value.nil with
        | .bool active =>
          match pollData.getD 2 Value.nil with
          | .array options =>
            match decodeOptions 0 options with
            | .error e => .failure e
            | .ok opts =>
              match pollData.getD 3 Value.nil with
              | .map votes =>
                match decodeVotes votes [] with
                | none => .failure (.message (utf8 "invalid vote data"))
                | some vs => .reply (renderPoll ⟨id, question, opts, vs, active⟩)
              | _ => .failure (.message (utf8 "invalid votes type"))
          | _ => .failure (.message (utf8 "invalid options type"))
        | _ => .failure (.message (utf8 "invalid active status type"))
      | _ => .failure (.message (utf8 "invalid question type"))
  | _ :: _ => .failure (.message (utf8 "Invalid poll data format"))

/-- Method `handleGetPoll`. -/
def handleGetPoll (call : Tarantool) (req : CommandRequest) : HandlerRun :=
  match ParseUint req.Text with
  | none => ⟨[], .reply (failureMarker ++ utf8 " Invalid poll ID format")⟩
  | some pollID =>
    let c : RpcCall := ⟨utf8 "get_poll", [.uint64 pollID, .str req.ChannelID]⟩
    ⟨[c],
      match call c with
      | .error err => .failure (.tarantool err)
      | .ok data =>
        match rejection data with
        | some r => r
        | none => decodePoll data⟩

/-- Method `handleClosePoll`. -/
def handleClosePoll (call : Tarantool) (req : CommandRequest) : HandlerRun :=
  match ParseUint req.Text with
  | none => ⟨[], .reply (failureMarker ++ utf8 " Invalid poll ID format")⟩
  | some pollID =>
    let c : RpcCall := ⟨utf8 "close_poll", [.uint64 pollID, .str req.UserID, .str req.ChannelID]⟩
    ⟨[c],
      match call c with
      | .error err => .failure (.tarantool err)
      | .ok data =>
        match rejection data with
        | some r => r
        | none => .reply (utf8 "Poll (ID `" ++ FormatUint pollID ++ utf8 "`) closed")⟩

/-- Method `handleDeletePoll`. -/
def handleDeletePoll (call : Tarantool) (req : CommandRequest) : HandlerRun :=
  match ParseUint req.Text with
  | none => ⟨[], .reply (failureMarker ++ utf8 " Invalid poll ID format")⟩
  | some pollID =>
    let c : RpcCall := ⟨utf8 "delete_poll", [.uint64 pollID, .str req.UserID, .str req.ChannelID]⟩
    ⟨[c],
      match call c with
      | .error err => .failure (.tarantool err)
      | .ok data =>
        match rejection data with
        | some r => r
        | none => .reply (utf8 "Poll (ID `" ++ FormatUint pollID ++ utf8 "`) deleted")⟩

/-! ## Dispatch (`handleCommandRequest`, from the lookup on) -/

/-- A handler as stored in `b.commands`. -/
abbrev CommandHandler := CommandRequest → HandlerRun

/-- Function `strings.TrimPrefix(s, "/")`. -/
def trimSlash : GoString → GoString
  | 47 :: s => s
  | s => s

/-- What `handleCommandRequest` answers. -/
inductive HttpResponse where
  /-- Status 200 with the JSON body carrying the reply text. -/
  | ok (text : GoString)
  /-- Status 404, "Command not found". -/
  | notFound
  /-- Status 500 with the text of the error. -/
  | internalServerError (err : GoError)
  /-- The handler panicked: `handleCommandRequest` writes no answer. -/
  | aborted

/-- A request served: the remote calls issued while serving it, and the answer. -/
structure Served where
  calls : List RpcCall
  response : HttpResponse

/-- Method `handleCommandRequest` from the handler lookup on (`payload` is the decoded form);
`commands` is the map `b.commands`. -/
def handleCommandRequest (commands : GoString → Option CommandHandler)
    (payload : CommandRequest) : Served :=
  let trigger := trimSlash payload.Command
  match commands trigger with
  | none => ⟨[], .notFound⟩
  | some handler =>
    let run := handler payload
    match run.result with
    | .failure err => ⟨run.calls, .internalServerError err⟩
    | .reply response => ⟨run.calls, .ok response⟩
    | .panic => ⟨run.calls, .aborted⟩

/-! ## Notions used in the statements -/

/-- Every call that the run issued was answered by the store with the outcome slots `data`
(the call succeeded at the transport level). -/
def answeredWith (call : Tarantool) (run : HandlerRun) (data : List Value) : Prop :=
  ∀ c ∈ run.calls, call c = Except.ok data

/-- A request with the given command name and text, from a fixed user in a fixed channel. -/
def sampleRequest (command text : String) : CommandRequest :=
  { Token := [], TeamID := [], TeamDomain := [], ChannelID := utf8 "town-square",
    ChannelName := [], UserID := utf8 "alice", UserName := [], Command := utf8 command,
    Text := utf8 text, ResponseURL := [], TriggerID := [] }

/-- A store that answers every call with the same outcome slots. -/
def constStore (data : List Value) : Tarantool := fun _ => Except.ok data

/-- The dynamic type of the value is `string`. -/
def Value.isStr : Value → Bool
  | .str _ => true
  | _ => false

/-- The dynamic type of the value is `uint64`. -/
def Value.isUint64 : Value → Bool
  | .uint64 _ => true
  | _ => false

/-- A `get_poll` payload tuple whose question, options and active flag have the expected
types and whose field 3 is a map: field 0, the votes entries, fields 4 to 6, 8 and 9 and any
further fields are arbitrary. -/
def pollTuple (f0 : Value) (question : GoString) (options : List GoString)
    (votes : List (Value × Value)) (f4 f5 f6 : Value) (active : Bool) (f8 f9 : Value)
    (more : List Value) : Value :=
  Value.array ([f0, Value.str question, Value.array (options.map Value.str), Value.map votes,
    f4, f5, f6, Value.bool active, f8, f9] ++ more)

/-- The unsigned 64-bit id carried by field 0, or the zero value left in `poll.ID` when field 0
has another type. -/
def idOf : Value → Nat
  | .uint64 v => v
  | _ => 0

/-- The count that a votes map of the payload stores under the text key `key`, 0 when the key
is missing. -/
def storedCount : List (Value × Value) → GoString → Nat
  | [], _ => 0
  | (.str k, .uint64 c) :: rest, key => if k = key then c else storedCount rest key
  | _ :: rest, key => storedCount rest key

/-- The option line that `handleGetPoll` writes for the option `option` at the 0-based
position `i`, showing the count `count`. -/
def optionLine (i : Nat) (option : GoString) (count : Int) : GoString :=
  FormatInt ((i : Int) + 1) ++ utf8 ". `" ++ option ++ utf8 "` - " ++ FormatInt count
    ++ utf8 " votes\n"

/-- The converted count that a votes map of the payload stores under the text key `key`, or
`dflt` when the key is missing. -/
def storedOr : List (Value × Value) → GoString → Int → Int
  | [], _, dflt => dflt
  | (.str k, .uint64 c) :: rest, key, dflt =>
    if k = key then intOfUint64 c else storedOr rest key dflt
  | _ :: rest, key, dflt => storedOr rest key dflt

/-- The value of a digit string read in base 10 from the accumulator `n`. -/
def decimalFrom (n : Nat) (s : GoString) : Nat :=
  s.foldl (fun a c => a * 10 + (c - 48)) n

/-- The value of a digit string read in base 10. -/
def decimalValue (s : GoString) : Nat := decimalFrom 0 s

/-- The text is a base-10 numeral of an unsigned 64-bit integer: not empty, decimal digits
only, value at most `2^64 - 1`. -/
def isUint64Numeral (s : GoString) : Prop :=
  s ≠ [] ∧ (∀ c ∈ s, 48 ≤ c ∧ c ≤ 57) ∧ decimalValue s < 2 ^ 64

/-- The text without its sign, when it starts with `+` or `-`. -/
def unsignedPart : GoString → GoString
  | [] => []
  | c :: rest => if c = 43 ∨ c = 45 then rest else c :: rest

/-- The text is a signed decimal integer: an optional sign, then at least one decimal digit
and nothing else. -/
def isSignedDecimal (s : GoString) : Prop :=
  unsignedPart s ≠ [] ∧ ∀ c ∈ unsignedPart s, 48 ≤ c ∧ c ≤ 57

/-- The white space bytes of ASCII: tab, line feed, vertical tab, form feed, carriage return,
space. -/
def isSpaceByte (c : Nat) : Bool :=
  c == 9 || c == 10 || c == 11 || c == 12 || c == 13 || c == 32

/-- The tokens of a text in the reading of the specification, where any non-empty run of
white space separates two tokens; `cur` is the token being read, last byte first. -/
def whitespaceTokensFrom (cur : GoString) : GoString → List GoString
  | [] => if cur = [] then [] else [cur.reverse]
  | c :: s =>
    if isSpaceByte c = true then
      if cur = [] then whitespaceTokensFrom [] s else cur.reverse :: whitespaceTokensFrom [] s
    else whitespaceTokensFrom (c :: cur) s

/-- The white-space-separated tokens of a text, in the reading of the specification. -/
def whitespaceTokens (s : GoString) : List GoString := whitespaceTokensFrom [] s

/-- A handler table with the single trigger `vote`, bound to `handleVote` on the given
store. -/
def sampleTable (call : Tarantool) : GoString → Option CommandHandler :=
  fun trigger => if trigger = utf8 "vote" then some (handleVote call) else none

/-- The line that `formatOptions` writes for the option `opt` at the 0-based position `i`. -/
def optionItem (i : Nat) (opt : GoString) : GoString :=
  FormatInt ((i : Int) + 1) ++ utf8 ". `" ++ opt ++ utf8 "`\n"

/-! ## Command registration (`registerCommand`) -/

/-- The fields of `model.Command` that `registerCommand` sets, with the identifier. -/
structure Command where
  Id : GoString
  TeamId : GoString
  Trigger : GoString
  Method : GoString
  AutoComplete : Bool
  AutoCompleteHint : GoString
  AutoCompleteDesc : GoString
  DisplayName : GoString
  Description : GoString
  URL : GoString
  CreatorId : GoString

/-- A request sent to the chat platform through `b.client`. -/
inductive ClientCall where
  | listCommands (teamId : GoString) (customOnly : Bool)
  | createCommand (cmd : Command)
  | updateCommand (cmd : Command)

/-- The chat platform client `b.client` over platform states `σ`: listing gives the commands
or the message of an error, creating and updating give the next state of the platform or the
message of an error. -/
structure Client (σ : Type) where
  ListCommands : σ → GoString → Bool → Except GoString (List Command)
  CreateCommand : σ → Command → Except GoString σ
  UpdateCommand : σ → Command → Except GoString σ

/-- The parts of `Bot` that `registerCommand` uses: `b.team.Id`, `b.user.Id`, the handler map
`b.commands`, and the state of the chat platform behind `b.client`. -/
structure Bot (σ : Type) where
  teamId : GoString
  userId : GoString
  commands : GoString → Option CommandHandler
  platform : σ

/-- A run of `registerCommand`: the bot afterwards, the requests sent to the chat platform in
order, and the message of the returned error (`none` for a nil error). -/
structure Registration (σ : Type) where
  bot : Bot σ
  calls : List ClientCall
  err : Option GoString

/-- Method `registerCommand`.  `Title` stands for `strings.Title` and `serverBaseURL` for the
result of `getServerBaseURL()`, which reads the environment. -/
def registerCommand {σ : Type} (client : Client σ) (Title : GoString → GoString)
    (serverBaseURL : GoString) (b : Bot σ) (trigger : GoString) (handler : CommandHandler)
    (hintAndDesc : List GoString) : Registration σ :=
  let b1 : Bot σ :=
    { b with commands := fun t => if t = trigger then some handler else b.commands t }
  let autoCompleteHint :=
    if 1 ≤ hintAndDesc.length then hintAndDesc.getD 0 [] else utf8 "[args] for /" ++ trigger
  let autoCompleteDesc :=
    if 2 ≤ hintAndDesc.length then hintAndDesc.getD 1 []
    else utf8 "Execute " ++ trigger ++ utf8 " command"
  let command : Command :=
    { Id := [], TeamId := b.teamId, Trigger := trigger, Method := utf8 "P",
      AutoComplete := true, AutoCompleteHint := autoCompleteHint,
      AutoCompleteDesc := autoCompleteDesc, DisplayName := Title trigger ++ utf8 " Command",
      Description := utf8 "Execute " ++ trigger ++ utf8 " command",
      URL := serverBaseURL ++ utf8 "/commands", CreatorId := b.userId }
  match client.ListCommands b.platform b.teamId false with
  | .error err =>
    ⟨b1, [.listCommands b.teamId false],
      some (utf8 "failed to list existing commands: " ++ err)⟩
  | .ok existingCommands =>
    match existingCommands.find? (fun cmd => cmd.Trigger = trigger) with
    | some existingCmd =>
      match client.UpdateCommand b.platform { command with Id := existingCmd.Id } with
      | .error err =>
        ⟨b1, [.listCommands b.teamId false, .updateCommand { command with Id := existingCmd.Id }],
          some (utf8 "failed to update existing command: " ++ err)⟩
      | .ok platform =>
        ⟨{ b1 with platform := platform },
          [.listCommands b.teamId false, .updateCommand { command with Id := existingCmd.Id }],
          none⟩
    | none =>
      match client.CreateCommand b.platform command with
      | .error err =>
        ⟨b1, [.listCommands b.teamId false, .createCommand command],
          some (utf8 "failed to register new command in Mattermost: " ++ err)⟩
      | .ok platform =>
        ⟨{ b1 with platform := platform },
          [.listCommands b.teamId false, .createCommand command], none⟩

/-- Modelled from the spec: the chat platform's command list, which lies outside the
repository.  The state is the list of the stored commands; listing returns the stored
commands, creating adds the command with the identifier that `fresh` picks, updating replaces
the command that has the given identifier; no request fails. -/
def listClient (fresh : List Command → GoString) : Client (List Command) where
  ListCommands := fun cmds _ _ => .ok cmds
  CreateCommand := fun cmds cmd => .ok (cmds ++ [{ cmd with Id := fresh cmds }])
  UpdateCommand := fun cmds cmd => .ok (cmds.map fun c => if c.Id = cmd.Id then cmd else c)

/-- A first and a second run of `registerCommand` for the same trigger on the modelled chat
platform, the second on the bot that the first one left. -/
def registerTwice (fresh : List Command → GoString) (Title : GoString → GoString)
    (serverBaseURL : GoString) (b : Bot (List Command)) (trigger : GoString)
    (handler1 handler2 : CommandHandler) (hintAndDesc1 hintAndDesc2 : List GoString) :
    Registration (List Command) × Registration (List Command) :=
  let first := registerCommand (listClient fresh) Title serverBaseURL b trigger handler1
    hintAndDesc1
  (first, registerCommand (listClient fresh) Title serverBaseURL first.bot trigger handler2
    hintAndDesc2)

/-- An identifier made of the number of stored commands, for the examples. -/
def sampleFresh (cmds : List Command) : GoString := utf8 "cmd-" ++ FormatUint cmds.length

/-- A bot for the examples, on a chat platform that stores the given commands. -/
def sampleBot (cmds : List Command) : Bot (List Command) :=
  { teamId := utf8 "team", userId := utf8 "bot", commands := fun _ => none, platform := cmds }

/-- A stored command with the given identifier and trigger, for the examples. -/
def sampleCommand (id trigger : String) : Command :=
  { Id := utf8 id, TeamId := utf8 "team", Trigger := utf8 trigger, Method := utf8 "P",
    AutoComplete := true, AutoCompleteHint := [], AutoCompleteDesc := [], DisplayName := [],
    Description := [], URL := [], CreatorId := utf8 "bot" }

/-- A handler that answers every request with an empty reply, for the examples. -/
def handleHelpless : CommandHandler := fun _ => ⟨[], .reply []⟩

/-- A store that rejects every `vote` call with the error text `e` in slot 1 and answers every
other call with an empty success outcome. -/
def voteRejectingStore (e : GoString) : Tarantool := fun c =>
  if c.name = utf8 "vote" then Except.ok [Value.nil, Value.array [Value.str e]]
  else Except.ok [Value.nil]

/-! ## The tokenizer: loops and list view -/

theorem advanceWhile_eq (p : Nat → Bool) (text : GoString) :
    ∀ (fuel index : Nat), text.length - index ≤ fuel →
      advanceWhile p text fuel index = index + ((text.drop index).takeWhile p).length := by
  intro fuel
  induction fuel with
  | zero =>
    intro index h
    have : text.length ≤ index := by omega
    simp [advanceWhile, List.drop_eq_nil_of_le this]
  | succ fuel ih =>
    intro index h
    unfold advanceWhile
    by_cases hlt : index < text.length
    · have hd : text.drop index = text.getD index 0 :: text.drop (index + 1) := by
        rw [List.drop_eq_getElem_cons hlt]
        simp [List.getElem?_eq_getElem hlt]
      by_cases hp : p (text.getD index 0) = true
      · rw [if_pos ⟨hlt, hp⟩, ih (index + 1) (by omega), hd, List.takeWhile_cons_of_pos hp]
        simp; omega
      · rw [if_neg (fun h => hp h.2), hd, List.takeWhile_cons_of_neg hp]
        simp
    · rw [if_neg (fun h => hlt h.1), List.drop_eq_nil_of_le (by omega)]
      simp

theorem drop_takeWhile_length (p : Nat → Bool) (l : GoString) :
    l.drop (l.takeWhile p).length = l.dropWhile p := by
  induction l with
  | nil => rfl
  | cons a l ih =>
    by_cases h : p a = true
    · simp [List.takeWhile_cons_of_pos h, List.dropWhile_cons_of_pos h, ih]
    · simp [List.takeWhile_cons_of_neg h, List.dropWhile_cons_of_neg h]

theorem length_takeWhile_le (p : Nat → Bool) (l : GoString) :
    (l.takeWhile p).length ≤ l.length := by
  have h := congrArg List.length (List.takeWhile_append_dropWhile p l)
  simp only [List.length_append] at h
  omega

theorem take_takeWhile_length (p : Nat → Bool) (l : GoString) :
    l.take (l.takeWhile p).length = l.takeWhile p := by
  induction l with
  | nil => rfl
  | cons a l ih =>
    by_cases h : p a = true
    · simp [List.takeWhile_cons_of_pos h, ih]
    · simp [List.takeWhile_cons_of_neg h]

/-- A `parseToken` call computes `tokenAt` on the text from `index` on; the new index is the
position right after the closing quote. -/
theorem parseToken_eq (index : Nat) (text : GoString) :
    parseToken index text =
      match tokenAt (text.drop index) with
      | none => ([], -1)
      | some (tok, rest) => (tok, ((text.length - rest.length : Nat) : Int)) := by
  unfold parseToken
  simp only []
  rw [advanceWhile_eq _ _ _ _ (le_refl _), advanceWhile_eq _ _ _ _ (le_refl _)]
  have hs2 : text.drop (index + ((text.drop index).takeWhile (fun c => c == 32)).length + 1)
      = ((text.drop index).dropWhile (fun c => c == 32)).drop 1 := by
    rw [← drop_takeWhile_length, List.drop_drop, List.drop_drop, Nat.add_assoc]
  rw [hs2]
  have hlen := congrArg List.length hs2
  have hk : ((text.drop index).takeWhile (fun c => c == 32)).length ≤ text.length - index := by
    have := length_takeWhile_le (fun c => c == 32) (text.drop index)
    simpa using this
  generalize hs2def : ((text.drop index).dropWhile (fun c => c == 32)).drop 1 = s2 at *
  generalize hkdef : ((text.drop index).takeWhile (fun c => c == 32)).length = k at *
  have hsplit := List.takeWhile_append_dropWhile (fun c => c != 34) s2
  have hsl := congrArg List.length hsplit
  simp only [List.length_drop, List.length_append] at hlen hsl
  unfold tokenAt
  rw [hs2def]
  cases hd : s2.dropWhile (fun c => c != 34) with
  | nil =>
    rw [hd] at hsl
    simp only [List.length_nil] at hsl
    rw [if_pos (by omega)]
  | cons c rest =>
    rw [hd] at hsl
    simp only [List.length_cons] at hsl
    rw [if_neg (by omega)]
    simp only [Prod.mk.injEq]
    constructor
    · rw [Nat.add_sub_cancel_left, take_takeWhile_length]
    · omega

theorem tokens_eq (s : GoString) :
    tokens s = match tokenAt s with
      | none => []
      | some (t, rest) => t :: tokens rest := by
  rw [tokens]
  split <;> simp_all

theorem dropWhile_head_not (p : Nat → Bool) (l : GoString) (c : Nat) (r : GoString)
    (h : l.dropWhile p = c :: r) : p c = false := by
  induction l with
  | nil => simp at h
  | cons a l ih =>
    by_cases ha : p a = true
    · rw [List.dropWhile_cons_of_pos ha] at h
      exact ih h
    · rw [List.dropWhile_cons_of_neg ha] at h
      cases h
      simpa using ha

/-- Shape of the text around a token that `tokenAt` returns: spaces, one byte that is not a
space, the token (free of quotes), a quote. -/
theorem tokenAt_some (s t rest : GoString) (h : tokenAt s = some (t, rest)) :
    ∃ sp x, s = sp ++ x :: (t ++ 34 :: rest) ∧ (∀ c ∈ sp, c = 32) ∧ x ≠ 32 ∧ 34 ∉ t := by
  unfold tokenAt at h
  split at h
  · cases h
  · rename_i c r heq
    simp only [Option.some.injEq, Prod.mk.injEq] at h
    obtain ⟨ht, hr⟩ := h
    subst hr
    have hc : c = 34 := by
      have := dropWhile_head_not _ _ _ _ heq
      simpa using this
    subst hc
    have hsplit2 := List.takeWhile_append_dropWhile (fun c => c != 34)
      ((s.dropWhile (fun c => c == 32)).drop 1)
    rw [heq, ht] at hsplit2
    cases hd : s.dropWhile (fun c => c == 32) with
    | nil => rw [hd] at hsplit2; simp at hsplit2
    | cons x d =>
      rw [hd] at hsplit2
      simp only [List.drop_succ_cons, List.drop_zero] at hsplit2
      refine ⟨s.takeWhile (fun c => c == 32), x, ?_, ?_, ?_, ?_⟩
      · rw [hsplit2, ← hd, List.takeWhile_append_dropWhile]
      · intro c hc
        simpa using List.mem_takeWhile_imp hc
      · have := dropWhile_head_not _ _ _ _ hd
        simpa using this
      · intro hmem
        rw [← ht] at hmem
        have := List.mem_takeWhile_imp hmem
        simp at this

theorem dropWhile_spaces_append (sp : GoString) (x : Nat) (r : GoString)
    (hsp : ∀ c ∈ sp, c = 32) (hx : x ≠ 32) :
    (sp ++ x :: r).dropWhile (fun c => c == 32) = x :: r := by
  induction sp with
  | nil => simp [List.dropWhile_cons, hx]
  | cons a sp ih =>
    have ha : a = 32 := hsp a (List.mem_cons_self _ _)
    subst ha
    simpa using ih (fun c hc => hsp c (List.mem_cons_of_mem _ hc))

theorem dropWhile_spaces_all (sp : GoString) (hsp : ∀ c ∈ sp, c = 32) :
    sp.dropWhile (fun c => c == 32) = [] := by
  induction sp with
  | nil => rfl
  | cons a sp ih =>
    have ha : a = 32 := hsp a (List.mem_cons_self _ _)
    subst ha
    simpa using ih (fun c hc => hsp c (List.mem_cons_of_mem _ hc))

theorem takeWhile_notQuote_append (t r : GoString) (ht : 34 ∉ t) :
    (t ++ 34 :: r).takeWhile (fun c => c != 34) = t := by
  induction t with
  | nil => simp
  | cons a t ih =>
    have ha : a ≠ 34 := fun h => ht (h ▸ List.mem_cons_self _ _)
    simp [List.takeWhile_cons, ha, ih (fun h => ht (List.mem_cons_of_mem _ h))]

theorem dropWhile_notQuote_append (t r : GoString) (ht : 34 ∉ t) :
    (t ++ 34 :: r).dropWhile (fun c => c != 34) = 34 :: r := by
  induction t with
  | nil => simp
  | cons a t ih =>
    have ha : a ≠ 34 := fun h => ht (h ▸ List.mem_cons_self _ _)
    simp [List.dropWhile_cons, ha, ih (fun h => ht (List.mem_cons_of_mem _ h))]

theorem dropWhile_notQuote_all (t : GoString) (ht : 34 ∉ t) :
    t.dropWhile (fun c => c != 34) = [] := by
  induction t with
  | nil => rfl
  | cons a t ih =>
    have ha : a ≠ 34 := fun h => ht (h ▸ List.mem_cons_self _ _)
    simp [List.dropWhile_cons, ha, ih (fun h => ht (List.mem_cons_of_mem _ h))]

/-- A token closed by a quote is returned, whatever byte stands where the opening quote is
expected. -/
theorem tokenAt_of_shape (sp : GoString) (x : Nat) (t rest : GoString)
    (hsp : ∀ c ∈ sp, c = 32) (hx : x ≠ 32) (ht : 34 ∉ t) :
    tokenAt (sp ++ x :: (t ++ 34 :: rest)) = some (t, rest) := by
  unfold tokenAt
  rw [dropWhile_spaces_append sp x _ hsp hx]
  simp only [List.drop_succ_cons, List.drop_zero]
  rw [dropWhile_notQuote_append t rest ht, takeWhile_notQuote_append t rest ht]

theorem tokenAt_spaces (sp : GoString) (hsp : ∀ c ∈ sp, c = 32) : tokenAt sp = none := by
  unfold tokenAt
  rw [dropWhile_spaces_all sp hsp]
  rfl

theorem tokenAt_unterminated (sp : GoString) (x : Nat) (t : GoString)
    (hsp : ∀ c ∈ sp, c = 32) (hx : x ≠ 32) (ht : 34 ∉ t) :
    tokenAt (sp ++ x :: t) = none := by
  unfold tokenAt
  rw [dropWhile_spaces_append sp x _ hsp hx]
  simp only [List.drop_succ_cons, List.drop_zero]
  rw [dropWhile_notQuote_all t ht]

theorem tokenAt_rest (s t rest : GoString) (h : tokenAt s = some (t, rest)) :
    rest.length + 2 ≤ s.length ∧ s.drop (s.length - rest.length) = rest := by
  obtain ⟨sp, x, hs, -, -, -⟩ := tokenAt_some s t rest h
  subst hs
  constructor
  · simp; omega
  · have : (sp ++ x :: (t ++ 34 :: rest)) = (sp ++ x :: (t ++ [34])) ++ rest := by simp
    rw [this, List.drop_left']
    simp; omega

/-- The option iterations of the `parsePoll` loop, started at a positive index with enough
iterations left, append the tokens of the rest of the text. -/
theorem parsePollLoop_options (text : GoString) :
    ∀ (fuel n : Nat) (question : GoString) (options : List GoString),
      0 < n → n ≤ text.length → text.length + 1 ≤ fuel + n →
      parsePollLoop text fuel (n : Int) question options
        = (question, options ++ tokens (text.drop n)) := by
  intro fuel
  induction fuel with
  | zero => intro n q os h0 hn hf; omega
  | succ fuel ih =>
    intro n q os h0 hn hf
    unfold parsePollLoop
    have h1 : ¬ ((n : Int) = -1) := by omega
    have h2 : ¬ ((n : Int) = 0) := by omega
    rw [if_neg h1, if_neg h2]
    simp only [Int.toNat_ofNat]
    rw [parseToken_eq, tokens_eq (text.drop n)]
    cases htok : tokenAt (text.drop n) with
    | none => simp
    | some p =>
      obtain ⟨t, rest⟩ := p
      obtain ⟨hlen, hdrop⟩ := tokenAt_rest _ _ _ htok
      simp only [List.length_drop] at hlen hdrop
      have h3 : ¬ (((text.length - rest.length : Nat) : Int) = -1) := by omega
      simp only [h3, if_false]
      rw [ih (text.length - rest.length) q (os ++ [t]) (by omega) (by omega) (by omega)]
      have hrest : text.drop (text.length - rest.length) = rest := by
        rw [List.drop_drop] at hdrop
        have e : text.length - rest.length = n + (text.length - n - rest.length) := by omega
        rw [e]
        exact hdrop
      rw [hrest]
      simp

/-- The loop of `parsePoll` never runs out of iterations: on every text the result is the
first token (the empty string when there is none) and the tokens after it. -/
theorem parsePoll_eq_tokens (text : GoString) :
    parsePoll text = ((tokens text).headD [], (tokens text).tail) := by
  unfold parsePoll parsePollLoop
  simp only [Int.reduceNeg, reduceCtorEq, if_true, if_false]
  rw [parseToken_eq, tokens_eq text]
  simp only [List.drop_zero]
  cases htok : tokenAt text with
  | none =>
    simp only []
    cases text with
    | nil => rfl
    | cons a l => simp [parsePollLoop]
  | some p =>
    obtain ⟨t, rest⟩ := p
    obtain ⟨hlen, hdrop⟩ := tokenAt_rest _ _ _ htok
    simp only []
    rw [parsePollLoop_options text _ _ _ _ (by omega) (by omega) (by omega), hdrop]
    simp

theorem mem_spaces (n : Nat) : ∀ c ∈ spaces n, c = 32 := by
  intro c hc
  exact List.eq_of_mem_replicate hc

theorem tokens_of_spaces (sp : GoString) (hsp : ∀ c ∈ sp, c = 32) : tokens sp = [] := by
  rw [tokens_eq, tokenAt_spaces sp hsp]

theorem tokens_of_unterminated (sp : GoString) (x : Nat) (t : GoString)
    (hsp : ∀ c ∈ sp, c = 32) (hx : x ≠ 32) (ht : 34 ∉ t) : tokens (sp ++ x :: t) = [] := by
  rw [tokens_eq, tokenAt_unterminated sp x t hsp hx ht]

theorem tokens_of_quoted (sp t rest : GoString) (hsp : ∀ c ∈ sp, c = 32) (ht : 34 ∉ t) :
    tokens (sp ++ quoted t ++ rest) = t :: tokens rest := by
  have e : sp ++ quoted t ++ rest = sp ++ 34 :: (t ++ 34 :: rest) := by simp [quoted]
  rw [e, tokens_eq, tokenAt_of_shape sp 34 t rest hsp (by decide) ht]

/-- Quoted options, each after any number of spaces, are returned in order. -/
theorem tokens_optionsText (opts : List (Nat × GoString)) (tail : GoString)
    (ho : ∀ o ∈ opts, 34 ∉ o.2) :
    tokens (optionsText opts ++ tail) = opts.map Prod.snd ++ tokens tail := by
  induction opts with
  | nil => simp [optionsText]
  | cons o opts ih =>
    have e : optionsText (o :: opts) ++ tail
        = spaces o.1 ++ quoted o.2 ++ (optionsText opts ++ tail) := by
      simp [optionsText]
    rw [e, tokens_of_quoted _ _ _ (mem_spaces o.1) (ho o (List.mem_cons_self _ _)),
      ih (fun o' h => ho o' (List.mem_cons_of_mem _ h))]
    simp

theorem parsePoll_pollText (pre : Nat) (q : GoString) (opts : List (Nat × GoString))
    (tail : GoString) (hq : 34 ∉ q) (ho : ∀ o ∈ opts, 34 ∉ o.2) (htail : tokens tail = []) :
    parsePoll (pollText pre q opts ++ tail) = (q, opts.map Prod.snd) := by
  have e : pollText pre q opts ++ tail = spaces pre ++ quoted q ++ (optionsText opts ++ tail) := by
    simp [pollText]
  rw [parsePoll_eq_tokens, e, tokens_of_quoted _ _ _ (mem_spaces pre) hq,
    tokens_optionsText opts tail ho, htail]
  simp

/-! ## Claims C1 and C3: well-formed and truncated poll commands -/

/-- C1: for every question `q` and options `o1 .. on` (`n ≥ 0`) without a double quote, and any
number of spaces before the question (`pre`), before each option (the first component of each
entry of `opts`) and after the last token (`post`), `parsePoll` on the text
`"q" "o1" ... "on"` returns the question `q` and exactly the options in their order. -/
theorem parsePoll_wellFormed (pre post : Nat) (q : GoString) (opts : List (Nat × GoString))
    (hq : 34 ∉ q) (ho : ∀ o ∈ opts, 34 ∉ o.2) :
    parsePoll (pollText pre q opts ++ spaces post) = (q, opts.map Prod.snd) :=
  parsePoll_pollText pre q opts (spaces post) hq ho (tokens_of_spaces _ (mem_spaces post))

/-- C1 at the inputs of the specification: `"Q" "A" "B"` gives the question `Q` and the options
`A`, `B`; `""` gives the empty question and no option. -/
theorem parsePoll_wellFormed_witness :
    parsePoll (utf8 "\"Q\" \"A\" \"B\"") = (utf8 "Q", [utf8 "A", utf8 "B"])
      ∧ parsePoll (utf8 "\"\"") = ([], []) :=
  ⟨parsePoll_wellFormed 0 0 (utf8 "Q") [(1, utf8 "A"), (1, utf8 "B")] (by decide) (by decide),
   parsePoll_wellFormed 0 0 [] [] (by decide) (by decide)⟩

/-- C3: a well-formed sequence `"q" "o1" ... "ok"` followed (after any number of spaces) by an
opening quote and text without a further quote: `parsePoll` returns the question `q` and
exactly the options `o1 .. ok`; the unterminated token and what follows it are absent. -/
theorem parsePoll_unterminated (pre gap : Nat) (q : GoString) (opts : List (Nat × GoString))
    (rest : GoString) (hq : 34 ∉ q) (ho : ∀ o ∈ opts, 34 ∉ o.2) (hrest : 34 ∉ rest) :
    parsePoll (pollText pre q opts ++ (spaces gap ++ 34 :: rest)) = (q, opts.map Prod.snd) :=
  parsePoll_pollText pre q opts _ hq ho
    (tokens_of_unterminated _ 34 rest (mem_spaces gap) (by decide) hrest)

/-- C3 at the input of the specification: `"Q" "A` gives the question `Q` and no option. -/
theorem parsePoll_unterminated_witness :
    parsePoll (utf8 "\"Q\" \"A") = (utf8 "Q", []) :=
  parsePoll_unterminated 0 1 (utf8 "Q") [] (utf8 "A") (by decide) (by decide) (by decide)

/-! ## Claim C2: text outside the quotes -/

theorem Split_no_sep (sep : Nat) (a : GoString) (ha : sep ∉ a) : Split sep a = [a] := by
  induction a with
  | nil => rfl
  | cons c a ih =>
    have hc : c ≠ sep := fun h => ha (h ▸ List.mem_cons_self _ _)
    simp [Split, hc, ih (fun h => ha (List.mem_cons_of_mem _ h))]

theorem Split_append_sep (sep : Nat) (a r : GoString) (ha : sep ∉ a) :
    Split sep (a ++ sep :: r) = a :: Split sep r := by
  induction a with
  | nil => simp [Split]
  | cons c a ih =>
    have hc : c ≠ sep := fun h => ha (h ▸ List.mem_cons_self _ _)
    simp [Split, hc, ih (fun h => ha (List.mem_cons_of_mem _ h))]

/-- A text has no quote, or splits at its first quote. -/
theorem first_quote_cases (text : GoString) :
    34 ∉ text ∨ ∃ a r, text = a ++ 34 :: r ∧ 34 ∉ a := by
  have hsplit := List.takeWhile_append_dropWhile (fun c => c != 34) text
  have hmem : 34 ∉ text.takeWhile (fun c => c != 34) := by
    intro h
    have := List.mem_takeWhile_imp h
    simp at this
  cases hd : text.dropWhile (fun c => c != 34) with
  | nil =>
    left
    rw [hd, List.append_nil] at hsplit
    rw [← hsplit]
    exact hmem
  | cons c r =>
    right
    have hc : c = 34 := by
      have := dropWhile_head_not _ _ _ _ hd
      simpa using this
    subst hc
    exact ⟨_, r, by rw [← hd, hsplit], hmem⟩

theorem Split_ne_nil (sep : Nat) (s : GoString) : Split sep s ≠ [] := by
  cases s with
  | nil => simp [Split]
  | cons c s =>
    unfold Split
    split
    · simp
    · split <;> simp

/-- A text without a double quote has no token, whatever it contains. -/
theorem tokens_of_noquote (text : GoString) (h : 34 ∉ text) : tokens text = [] := by
  have hsplit := List.takeWhile_append_dropWhile (fun c => c == 32) text
  have hsp : ∀ c ∈ text.takeWhile (fun c => c == 32), c = 32 := by
    intro c hc
    simpa using List.mem_takeWhile_imp hc
  cases hd : text.dropWhile (fun c => c == 32) with
  | nil =>
    rw [hd, List.append_nil] at hsplit
    rw [← hsplit]
    exact tokens_of_spaces _ hsp
  | cons x t =>
    have hx : x ≠ 32 := by
      have := dropWhile_head_not _ _ _ _ hd
      simpa using this
    rw [hd] at hsplit
    have ht : 34 ∉ t := by
      intro hm
      apply h
      rw [← hsplit]
      simp [hm]
    rw [← hsplit]
    exact tokens_of_unterminated _ x t hsp hx ht

theorem outsideText_ne_nil (text : GoString) : outsideText text ≠ [] := by
  unfold outsideText
  have h := Split_ne_nil 34 text
  cases hs : Split 34 text with
  | nil => exact absurd hs h
  | cons a l =>
    cases l with
    | nil => simp [outsidePieces]
    | cons b r => simp [outsidePieces]

/-- With balanced quotes and nothing but spaces before the first quote and between a closing
quote and the next opening quote, the tokens are the substrings between the 1st and 2nd, 3rd
and 4th, ... quote, whatever follows the last closing quote. -/
theorem tokens_eq_quoteSegments :
    ∀ (n : Nat) (text : GoString), text.length ≤ n → text.count 34 % 2 = 0 →
      (∀ p ∈ (outsideText text).dropLast, ∀ c ∈ p, c = 32) →
      tokens text = quoteSegments text := by
  intro n
  induction n with
  | zero =>
    intro text hn _ _
    have : text = [] := List.eq_nil_of_length_eq_zero (by omega)
    subst this
    rw [tokens_of_spaces [] (by simp)]
    rfl
  | succ n ih =>
    intro text hn hbal hout
    rcases first_quote_cases text with h | ⟨a, r1, rfl, ha⟩
    · have hs : Split 34 text = [text] := Split_no_sep 34 text h
      rw [tokens_of_noquote text h]
      simp [quoteSegments, hs, insidePieces]
    · have hca : a.count 34 = 0 := List.count_eq_zero.mpr ha
      rcases first_quote_cases r1 with h1 | ⟨b, r2, rfl, hb⟩
      · have : r1.count 34 = 0 := List.count_eq_zero.mpr h1
        simp [List.count_append, List.count_cons, hca, this] at hbal
      · have hcb : b.count 34 = 0 := List.count_eq_zero.mpr hb
        have hs : Split 34 (a ++ 34 :: (b ++ 34 :: r2)) = a :: b :: Split 34 r2 := by
          rw [Split_append_sep 34 a _ ha, Split_append_sep 34 b _ hb]
        have hdrop : (outsideText (a ++ 34 :: (b ++ 34 :: r2))).dropLast
            = a :: (outsideText r2).dropLast := by
          have e : outsideText (a ++ 34 :: (b ++ 34 :: r2)) = a :: outsideText r2 := by
            simp only [outsideText, hs, outsidePieces]
          rw [e, List.dropLast_cons_of_ne_nil (outsideText_ne_nil r2)]
        rw [hdrop] at hout
        have hsp : ∀ c ∈ a, c = 32 := hout a (List.mem_cons_self _ _)
        have hbal2 : r2.count 34 % 2 = 0 := by
          simp only [List.count_append, List.count_cons, hca, hcb, beq_self_eq_true,
            if_true] at hbal
          omega
        have hout2 : ∀ p ∈ (outsideText r2).dropLast, ∀ c ∈ p, c = 32 :=
          fun p hp => hout p (List.mem_cons_of_mem _ hp)
        have hlen : r2.length ≤ n := by
          simp only [List.length_append, List.length_cons] at hn
          omega
        rw [tokens_eq, tokenAt_of_shape a 34 b r2 hsp (by decide) hb]
        simp only [quoteSegments, hs, insidePieces]
        rw [ih r2 hlen hbal2 hout2]
        rfl

/-- C2, amended: for every text whose double quotes are balanced and in which only space
characters occur before the first quote and between a closing quote and the next opening quote
(every stretch outside the quote pairs but the last one), `parsePoll` returns exactly the
substrings lying strictly between the 1st and 2nd, the 3rd and 4th, ... quote: the first one as
the question (the empty string when there is none), the rest as the options.  The text after
the last closing quote, white space or not, is dropped without changing any token. -/
theorem parsePoll_balanced_spaces (text : GoString) (hbal : text.count 34 % 2 = 0)
    (hout : ∀ p ∈ (outsideText text).dropLast, ∀ c ∈ p, c = 32) :
    parsePoll text = ((quoteSegments text).headD [], (quoteSegments text).tail) := by
  rw [parsePoll_eq_tokens, tokens_eq_quoteSegments text.length text (le_refl _) hbal hout]

/-- C2, amended, at concrete texts: `  "Q"   "A" ` and `"Q" "A" xyz` (text after the last
closing quote) both give the question `Q` and the option `A`, and a text without any quote
gives the empty question and no option. -/
theorem parsePoll_balanced_spaces_witness :
    parsePoll (utf8 "  \"Q\"   \"A\" ") = (utf8 "Q", [utf8 "A"])
      ∧ parsePoll (utf8 "\"Q\" \"A\" xyz") = (utf8 "Q", [utf8 "A"])
      ∧ parsePoll (utf8 "no\tquotes here") = ([], []) :=
  ⟨parsePoll_balanced_spaces (utf8 "  \"Q\"   \"A\" ") (by decide) (by decide),
   parsePoll_balanced_spaces (utf8 "\"Q\" \"A\" xyz") (by decide) (by decide),
   parsePoll_balanced_spaces (utf8 "no\tquotes here") (by decide) (by decide)⟩

/-- C2 as stated fails: in `"Q" x "A"` the quotes are balanced and the substrings between the
quote pairs are `Q` and `A`, but `parsePoll` returns the options ` ` and the empty string, not
`A`: the `x` is consumed as an opening delimiter.  A tab between the tokens does the same. -/
theorem parsePoll_outside_text_counterexample :
    (utf8 "\"Q\" x \"A\"").count 34 % 2 = 0
      ∧ quoteSegments (utf8 "\"Q\" x \"A\"") = [utf8 "Q", utf8 "A"]
      ∧ parsePoll (utf8 "\"Q\" x \"A\"") = (utf8 "Q", [utf8 " ", []])
      ∧ parsePoll (utf8 "\"Q\" x \"A\"") ≠ (utf8 "Q", [utf8 "A"])
      ∧ parsePoll (utf8 "\"Q\"\t\"A\"") = (utf8 "Q", [[], []]) := by
  decide

/-! ## Claims C4 and C5: rejections reported by the store -/

theorem rejection_wrapped (slot0 : Value) (e : GoString) (more : List Value) :
    rejection (slot0 :: Value.array [Value.str e] :: more)
      = some (.reply (failureMarker ++ 32 :: e)) := by
  simp [rejection, Value.isNil]

/-- The rejection block answers with a marked reply whenever slot 1 is present, not nil, and
not an array that is empty or starts with something that is not text. -/
theorem rejection_marked (data : List Value) (hlen : 2 ≤ data.length)
    (hnil : (data.getD 1 Value.nil).isNil = false)
    (hshape : ∀ items, data.getD 1 Value.nil = Value.array items →
      ∃ s rest, items = Value.str s :: rest) :
    ∃ t, rejection data = some (.reply (failureMarker ++ t)) := by
  unfold rejection
  rw [if_pos ⟨hlen, hnil⟩]
  cases h : data.getD 1 Value.nil with
  | array items =>
    obtain ⟨s, rest, rfl⟩ := hshape items h
    exact ⟨32 :: s, rfl⟩
  | nil => rw [h] at hnil; simp [Value.isNil] at hnil
  | _ => exact ⟨[32], rfl⟩

theorem handleVote_answered (call : Tarantool) (req : CommandRequest) (data : List Value)
    (hv : (parseVote req.Text).2.2 = none)
    (h : answeredWith call (handleVote call req) data) :
    (handleVote call req).result =
      match rejection data with
      | some r => r
      | none => .reply (utf8 "Successfully voted for option "
          ++ FormatInt (parseVote req.Text).2.1 ++ utf8 " in the poll "
          ++ FormatUint (parseVote req.Text).1) := by
  rcases hp : parseVote req.Text with ⟨pollID, optionIndex, err⟩
  rw [hp] at hv
  simp only at hv
  subst hv
  unfold answeredWith handleVote at h
  rw [hp] at h
  simp only [List.mem_singleton, forall_eq] at h
  unfold handleVote
  rw [hp]
  simp only [h]

theorem handleGetPoll_answered (call : Tarantool) (req : CommandRequest) (data : List Value)
    (hid : (ParseUint req.Text).isSome)
    (h : answeredWith call (handleGetPoll call req) data) :
    (handleGetPoll call req).result =
      match rejection data with
      | some r => r
      | none => decodePoll data := by
  obtain ⟨pollID, hp⟩ := Option.isSome_iff_exists.mp hid
  unfold answeredWith handleGetPoll at h
  rw [hp] at h
  simp only [List.mem_singleton, forall_eq] at h
  unfold handleGetPoll
  rw [hp]
  simp only [h]

theorem handleClosePoll_answered (call : Tarantool) (req : CommandRequest) (data : List Value)
    (pollID : Nat) (hp : ParseUint req.Text = some pollID)
    (h : answeredWith call (handleClosePoll call req) data) :
    (handleClosePoll call req).result =
      match rejection data with
      | some r => r
      | none => .reply (utf8 "Poll (ID `" ++ FormatUint pollID ++ utf8 "`) closed") := by
  unfold answeredWith handleClosePoll at h
  rw [hp] at h
  simp only [List.mem_singleton, forall_eq] at h
  unfold handleClosePoll
  rw [hp]
  simp only [h]

theorem handleDeletePoll_answered (call : Tarantool) (req : CommandRequest) (data : List Value)
    (pollID : Nat) (hp : ParseUint req.Text = some pollID)
    (h : answeredWith call (handleDeletePoll call req) data) :
    (handleDeletePoll call req).result =
      match rejection data with
      | some r => r
      | none => .reply (utf8 "Poll (ID `" ++ FormatUint pollID ++ utf8 "`) deleted") := by
  unfold answeredWith handleDeletePoll at h
  rw [hp] at h
  simp only [List.mem_singleton, forall_eq] at h
  unfold handleDeletePoll
  rw [hp]
  simp only [h]

theorem handlePoll_answered (call : Tarantool) (req : CommandRequest) (data : List Value)
    (hq : (parsePoll req.Text).1 ≠ []) (ho : (parsePoll req.Text).2 ≠ [])
    (hlen : 2 ≤ data.length) (hnil : (data.getD 1 Value.nil).isNil = false)
    (h : answeredWith call (handlePoll call req) data) :
    (handlePoll call req).result = .failure (.ofValue (data.getD 1 Value.nil)) := by
  unfold answeredWith handlePoll at h
  simp only [if_neg hq, if_neg ho, List.mem_singleton, forall_eq] at h
  unfold handlePoll
  simp only [if_neg hq, if_neg ho, h]
  rw [if_pos ⟨hlen, hnil⟩]

theorem handleCommandRequest_reply (commands : GoString → Option CommandHandler)
    (payload : CommandRequest) (handler : CommandHandler) (t : GoString)
    (hc : commands (trimSlash payload.Command) = some handler)
    (hr : (handler payload).result = .reply t) :
    (handleCommandRequest commands payload).response = .ok t := by
  unfold handleCommandRequest
  simp only [hc, hr]

theorem handleCommandRequest_failure (commands : GoString → Option CommandHandler)
    (payload : CommandRequest) (handler : CommandHandler) (err : GoError)
    (hc : commands (trimSlash payload.Command) = some handler)
    (hr : (handler payload).result = .failure err) :
    (handleCommandRequest commands payload).response = .internalServerError err := by
  unfold handleCommandRequest
  simp only [hc, hr]

/-- C5: for each of `handleVote`, `handleGetPoll`, `handleClosePoll` and `handleDeletePoll`
on its own, for every store, every valid request text, every error text `e`, every value of
slot 0 and any further slots: when the store answers the handler's call with at least two
slots, slot 1 being the one-element array `[e]`, the handler returns a nil error and the reply
made of the failure marker, one space and exactly `e`. -/
theorem wrapped_rejection_reply (e : GoString) :
    (∀ (call : Tarantool) (req : CommandRequest) (slot0 : Value) (more : List Value),
        (parseVote req.Text).2.2 = none →
        answeredWith call (handleVote call req) (slot0 :: Value.array [Value.str e] :: more) →
        (handleVote call req).result = .reply (failureMarker ++ 32 :: e))
      ∧ (∀ (call : Tarantool) (req : CommandRequest) (slot0 : Value) (more : List Value),
        (ParseUint req.Text).isSome →
        answeredWith call (handleGetPoll call req) (slot0 :: Value.array [Value.str e] :: more) →
        (handleGetPoll call req).result = .reply (failureMarker ++ 32 :: e))
      ∧ (∀ (call : Tarantool) (req : CommandRequest) (slot0 : Value) (more : List Value),
        (ParseUint req.Text).isSome →
        answeredWith call (handleClosePoll call req)
          (slot0 :: Value.array [Value.str e] :: more) →
        (handleClosePoll call req).result = .reply (failureMarker ++ 32 :: e))
      ∧ (∀ (call : Tarantool) (req : CommandRequest) (slot0 : Value) (more : List Value),
        (ParseUint req.Text).isSome →
        answeredWith call (handleDeletePoll call req)
          (slot0 :: Value.array [Value.str e] :: more) →
        (handleDeletePoll call req).result = .reply (failureMarker ++ 32 :: e)) := by
  refine ⟨?_, ?_, ?_, ?_⟩
  · intro call req slot0 more hvote hv
    rw [handleVote_answered call req _ hvote hv, rejection_wrapped]
  · intro call req slot0 more hid hg
    rw [handleGetPoll_answered call req _ hid hg, rejection_wrapped]
  · intro call req slot0 more hid hc
    obtain ⟨pollID, hp⟩ := Option.isSome_iff_exists.mp hid
    rw [handleClosePoll_answered call req _ pollID hp hc, rejection_wrapped]
  · intro call req slot0 more hid hd
    obtain ⟨pollID, hp⟩ := Option.isSome_iff_exists.mp hid
    rw [handleDeletePoll_answered call req _ pollID hp hd, rejection_wrapped]

/-- C5 at the input of the specification: a vote outcome whose slot 1 is `["already voted"]`
renders the failure marker followed by ` already voted`, on a store that rejects only the
`vote` call; and each of the three other handlers does so on a store of its own, whatever
slot 0 holds. -/
theorem wrapped_rejection_reply_witness :
    (handleVote (voteRejectingStore (utf8 "already voted")) (sampleRequest "/vote" "42 2")).result
        = .reply (failureMarker ++ utf8 " already voted")
      ∧ (handleGetPoll (constStore [Value.uint64 9, Value.array [Value.str (utf8 "not found")]])
        (sampleRequest "/get-poll" "42")).result
        = .reply (failureMarker ++ utf8 " not found")
      ∧ (handleClosePoll
          (constStore [Value.bool true, Value.array [Value.str (utf8 "not creator")], Value.nil])
        (sampleRequest "/close-poll" "42")).result
        = .reply (failureMarker ++ utf8 " not creator")
      ∧ (handleDeletePoll (constStore [Value.nil, Value.array [Value.str (utf8 "poll is open")]])
        (sampleRequest "/delete-poll" "42")).result
        = .reply (failureMarker ++ utf8 " poll is open") :=
  ⟨(wrapped_rejection_reply (utf8 "already voted")).1 (voteRejectingStore (utf8 "already voted"))
      (sampleRequest "/vote" "42 2") Value.nil [] (by decide) (by
        intro c hc
        have hcalls : (handleVote (voteRejectingStore (utf8 "already voted"))
            (sampleRequest "/vote" "42 2")).calls
            = [⟨utf8 "vote", [Value.uint64 42, Value.str (utf8 "alice"), Value.int 2,
                Value.str (utf8 "town-square")]⟩] := rfl
        rw [hcalls, List.mem_singleton] at hc
        subst hc
        rfl),
   (wrapped_rejection_reply (utf8 "not found")).2.1 _ (sampleRequest "/get-poll" "42")
      (Value.uint64 9) [] (by decide) (fun _ _ => rfl),
   (wrapped_rejection_reply (utf8 "not creator")).2.2.1 _ (sampleRequest "/close-poll" "42")
      (Value.bool true) [Value.nil] (by decide) (fun _ _ => rfl),
   (wrapped_rejection_reply (utf8 "poll is open")).2.2.2 _ (sampleRequest "/delete-poll" "42")
      Value.nil [] (by decide) (fun _ _ => rfl)⟩

/-- Each of `handleVote`, `handleGetPoll`, `handleClosePoll` and `handleDeletePoll` on its
own: an answered call whose slot 1 is present, not nil, and either not an array or an array
whose first element is text gives a nil error and a reply that starts with the failure marker,
which `handleCommandRequest` sends with the success status. -/
theorem sibling_rejections_are_replies (data : List Value)
    (hlen : 2 ≤ data.length) (hnil : (data.getD 1 Value.nil).isNil = false)
    (hshape : ∀ items, data.getD 1 Value.nil = Value.array items →
      ∃ s rest, items = Value.str s :: rest) :
    ∃ t,
      (∀ (call : Tarantool) (req : CommandRequest), (parseVote req.Text).2.2 = none →
        answeredWith call (handleVote call req) data →
        (handleVote call req).result = .reply (failureMarker ++ t)
          ∧ ∀ commands, commands (trimSlash req.Command) = some (handleVote call) →
            (handleCommandRequest commands req).response = .ok (failureMarker ++ t))
      ∧ (∀ (call : Tarantool) (req : CommandRequest), (ParseUint req.Text).isSome →
        answeredWith call (handleGetPoll call req) data →
        (handleGetPoll call req).result = .reply (failureMarker ++ t)
          ∧ ∀ commands, commands (trimSlash req.Command) = some (handleGetPoll call) →
            (handleCommandRequest commands req).response = .ok (failureMarker ++ t))
      ∧ (∀ (call : Tarantool) (req : CommandRequest), (ParseUint req.Text).isSome →
        answeredWith call (handleClosePoll call req) data →
        (handleClosePoll call req).result = .reply (failureMarker ++ t)
          ∧ ∀ commands, commands (trimSlash req.Command) = some (handleClosePoll call) →
            (handleCommandRequest commands req).response = .ok (failureMarker ++ t))
      ∧ (∀ (call : Tarantool) (req : CommandRequest), (ParseUint req.Text).isSome →
        answeredWith call (handleDeletePoll call req) data →
        (handleDeletePoll call req).result = .reply (failureMarker ++ t)
          ∧ ∀ commands, commands (trimSlash req.Command) = some (handleDeletePoll call) →
            (handleCommandRequest commands req).response = .ok (failureMarker ++ t)) := by
  obtain ⟨t, ht⟩ := rejection_marked data hlen hnil hshape
  refine ⟨t, ?_, ?_, ?_, ?_⟩
  · intro call req hvote hv
    have h1 : (handleVote call req).result = .reply (failureMarker ++ t) := by
      rw [handleVote_answered call req _ hvote hv, ht]
    exact ⟨h1, fun cs hcs => handleCommandRequest_reply cs req _ _ hcs h1⟩
  · intro call req hid hg
    have h1 : (handleGetPoll call req).result = .reply (failureMarker ++ t) := by
      rw [handleGetPoll_answered call req _ hid hg, ht]
    exact ⟨h1, fun cs hcs => handleCommandRequest_reply cs req _ _ hcs h1⟩
  · intro call req hid hc
    obtain ⟨pollID, hp⟩ := Option.isSome_iff_exists.mp hid
    have h1 : (handleClosePoll call req).result = .reply (failureMarker ++ t) := by
      rw [handleClosePoll_answered call req _ pollID hp hc, ht]
    exact ⟨h1, fun cs hcs => handleCommandRequest_reply cs req _ _ hcs h1⟩
  · intro call req hid hd
    obtain ⟨pollID, hp⟩ := Option.isSome_iff_exists.mp hid
    have h1 : (handleDeletePoll call req).result = .reply (failureMarker ++ t) := by
      rw [handleDeletePoll_answered call req _ pollID hp hd, ht]
    exact ⟨h1, fun cs hcs => handleCommandRequest_reply cs req _ _ hcs h1⟩

/-- For every store and every well-formed `/poll` request, an answered call whose slot 1 is
present and not nil makes `handlePoll` return a non-nil error built from slot 1 and no reply,
and `handleCommandRequest` answers with the internal-error status. -/
theorem handlePoll_rejection_general (call : Tarantool) (req : CommandRequest)
    (data : List Value)
    (hq : (parsePoll req.Text).1 ≠ []) (ho : (parsePoll req.Text).2 ≠ [])
    (hlen : 2 ≤ data.length) (hnil : (data.getD 1 Value.nil).isNil = false)
    (h : answeredWith call (handlePoll call req) data) :
    (handlePoll call req).result = .failure (.ofValue (data.getD 1 Value.nil))
      ∧ ∀ commands, commands (trimSlash req.Command) = some (handlePoll call) →
          (handleCommandRequest commands req).response
            = .internalServerError (.ofValue (data.getD 1 Value.nil)) := by
  have h5 := handlePoll_answered call req data hq ho hlen hnil h
  exact ⟨h5, fun cs hcs => handleCommandRequest_failure cs req _ _ hcs h5⟩

set_option maxRecDepth 100000 in
/-- C4 fails on the code for `create_poll`.  The store answers a well-formed `/poll` command
with slot 1 equal to the error text `poll limit reached` (not wrapped): `handlePoll` returns a
non-nil error and no reply, and `handleCommandRequest` answers with the internal-error (500)
status.  The same holds when slot 1 is the array `["poll limit reached"]`, the outcome on which
`handleVote`, `handleGetPoll`, `handleClosePoll` and `handleDeletePoll` each return a nil error
and the failure-marked reply, which `handleCommandRequest` sends with the success status. -/
theorem handlePoll_rejection_is_error :
    (handlePoll (constStore [Value.nil, Value.str (utf8 "poll limit reached")])
        (sampleRequest "/poll" "\"Q\" \"A\" \"B\"")).result
        = .failure (.ofValue (Value.str (utf8 "poll limit reached")))
      ∧ (handleCommandRequest
          (fun _ => some (handlePoll (constStore [Value.nil, Value.str (utf8 "poll limit reached")])))
          (sampleRequest "/poll" "\"Q\" \"A\" \"B\"")).response
        = .internalServerError (.ofValue (Value.str (utf8 "poll limit reached")))
      ∧ (handleCommandRequest
          (fun _ => some (handlePoll
            (constStore [Value.nil, Value.array [Value.str (utf8 "poll limit reached")]])))
          (sampleRequest "/poll" "\"Q\" \"A\" \"B\"")).response
        = .internalServerError
            (.ofValue (Value.array [Value.str (utf8 "poll limit reached")]))
      ∧ (handleCommandRequest
          (fun _ => some (handleVote
            (constStore [Value.nil, Value.array [Value.str (utf8 "poll limit reached")]])))
          (sampleRequest "/vote" "42 2")).response
        = .ok (failureMarker ++ utf8 " poll limit reached")
      ∧ (handleCommandRequest
          (fun _ => some (handleGetPoll
            (constStore [Value.nil, Value.array [Value.str (utf8 "poll limit reached")]])))
          (sampleRequest "/get-poll" "42")).response
        = .ok (failureMarker ++ utf8 " poll limit reached")
      ∧ (handleCommandRequest
          (fun _ => some (handleClosePoll
            (constStore [Value.nil, Value.array [Value.str (utf8 "poll limit reached")]])))
          (sampleRequest "/close-poll" "42")).response
        = .ok (failureMarker ++ utf8 " poll limit reached")
      ∧ (handleCommandRequest
          (fun _ => some (handleDeletePoll
            (constStore [Value.nil, Value.array [Value.str (utf8 "poll limit reached")]])))
          (sampleRequest "/delete-poll" "42")).response
        = .ok (failureMarker ++ utf8 " poll limit reached") :=
  ⟨rfl, rfl, rfl, rfl, rfl, rfl, rfl⟩

/-! ## Claims C6 to C9: decoding and rendering a `get_poll` payload -/

theorem rejection_absent (payload : Value) : rejection [payload] = none := by
  simp [rejection]

theorem rejection_nil (payload : Value) (rest : List Value) :
    rejection (payload :: Value.nil :: rest) = none := by
  simp [rejection, Value.isNil]

theorem decodeOptions_strs (options : List GoString) :
    ∀ i, decodeOptions i (options.map Value.str) = .ok options := by
  induction options with
  | nil => intro i; rfl
  | cons o os ih => intro i; simp [decodeOptions, ih]

/-- The votes loop fails exactly when some entry is not a text key with a `uint64` count. -/
theorem decodeVotes_eq_none_iff (votes : List (Value × Value)) :
    ∀ acc, decodeVotes votes acc = none
      ↔ ∃ kv ∈ votes, kv.1.isStr = false ∨ kv.2.isUint64 = false := by
  induction votes with
  | nil => intro acc; simp [decodeVotes]
  | cons kv votes ih =>
    intro acc
    unfold decodeVotes
    split
    · rename_i h; cases h
    · rename_i key val rest acc2 h
      simp only [List.cons.injEq] at h
      obtain ⟨rfl, rfl⟩ := h
      simp [ih, Value.isStr, Value.isUint64]
    · rename_i hd tl hne heq
      simp only [List.cons.injEq] at heq
      obtain ⟨rfl, -⟩ := heq
      simp only [true_iff]
      refine ⟨kv, List.mem_cons_self _ _, ?_⟩
      obtain ⟨k, v⟩ := kv
      cases k with
      | str key =>
        cases v with
        | uint64 val => exact absurd rfl (hne key val)
        | _ => right; rfl
      | _ => left; rfl

theorem decodePoll_pollTuple (f0 : Value) (question : GoString) (options : List GoString)
    (votes : List (Value × Value)) (f4 f5 f6 : Value) (active : Bool) (f8 f9 : Value)
    (more rest : List Value) :
    decodePoll (pollTuple f0 question options votes f4 f5 f6 active f8 f9 more :: rest) =
      match decodeVotes votes [] with
      | none => .failure (.message (utf8 "invalid vote data"))
      | some vs => .reply (renderPoll ⟨idOf f0, question, options, vs, active⟩) := by
  have hid : (match f0 with
      | Value.uint64 v => v
      | _ => 0) = idOf f0 := by
    cases f0 <;> rfl
  simp [decodePoll, pollTuple, decodeOptions_strs, hid]

theorem decodeOptions_ok (items : List Value) :
    ∀ (i : Nat) (opts : List GoString), decodeOptions i items = .ok opts →
      items = opts.map Value.str := by
  induction items with
  | nil =>
    intro i opts h
    simp only [decodeOptions, Except.ok.injEq] at h
    subst h
    rfl
  | cons v items ih =>
    intro i opts h
    cases v with
    | str s =>
      simp only [decodeOptions] at h
      cases hrec : decodeOptions (i + 1) items with
      | error e => rw [hrec] at h; cases h
      | ok ss =>
        rw [hrec] at h
        simp only [Except.ok.injEq] at h
        subst h
        rw [ih (i + 1) ss hrec]
        rfl
    | _ => simp [decodeOptions] at h

/-- The checked fields: a payload tuple of at least 10 fields whose field 1 is not text, or
field 7 not a boolean, or field 2 not a sequence of texts, or field 3 not a map from text keys
to `uint64` counts, makes the decode return an error. -/
theorem decodePoll_mismatch (pollData rest : List Value) (hlen : 10 ≤ pollData.length)
    (h : (pollData.getD 1 Value.nil).isStr = false
      ∨ (∀ b, pollData.getD 7 Value.nil ≠ Value.bool b)
      ∨ (∀ opts, pollData.getD 2 Value.nil ≠ Value.array (List.map Value.str opts))
      ∨ (∀ votes, pollData.getD 3 Value.nil = Value.map votes →
          ∃ kv ∈ votes, kv.1.isStr = false ∨ kv.2.isUint64 = false)) :
    ∃ e, decodePoll (Value.array pollData :: rest) = .failure e := by
  unfold decodePoll
  simp only [show ¬ pollData.length < 10 from by omega, if_false]
  split
  · rename_i question h1
    split
    · rename_i active h7
      split
      · rename_i options h2
        split
        · exact ⟨_, rfl⟩
        · rename_i opts hopts
          have hitems := decodeOptions_ok options 0 opts hopts
          split
          · rename_i votes h3
            split
            · exact ⟨_, rfl⟩
            · rename_i vs hvs
              exfalso
              rcases h with h | h | h | h
              · rw [h1] at h; cases h
              · exact h active h7
              · exact h opts (by rw [h2, hitems])
              · obtain ⟨kv, hkv, hbad⟩ := h votes h3
                have := (decodeVotes_eq_none_iff votes []).mpr ⟨kv, hkv, hbad⟩
                rw [this] at hvs
                cases hvs
          · exact ⟨_, rfl⟩
      · exact ⟨_, rfl⟩
    · exact ⟨_, rfl⟩
  · exact ⟨_, rfl⟩

/-- Below `2^63` the conversion to `int` and the rendering keep the count. -/
theorem count_exact_below_wrap (c : Nat) (h : c < 2 ^ 63) :
    FormatInt (intOfUint64 c) = FormatUint c := by
  have h1 : c % 2 ^ 64 = c := Nat.mod_eq_of_lt (by omega)
  unfold intOfUint64 FormatInt
  rw [h1, if_pos h]
  have h2 : ¬ ((c : Int) < 0) := by omega
  rw [if_neg h2]
  simp

set_option maxRecDepth 100000 in
/-- C6 fails on the code: field 0 of the payload is the signed integer -7, not a `uint64`.  No
decode error is returned: the poll is rendered with the id 0. -/
theorem handleGetPoll_id_defaulted :
    (handleGetPoll
      (constStore [pollTuple (Value.int64 (-7)) (utf8 "Fav color?") [utf8 "Red", utf8 "Blue"]
        [(Value.str (utf8 "1"), Value.uint64 3), (Value.str (utf8 "2"), Value.uint64 1)]
        Value.nil Value.nil Value.nil true Value.nil Value.nil []])
      (sampleRequest "/get-poll" "7")).result
      = .reply (utf8 "\uF8FFüìä Poll (ID `0`)\n‚úÖ Active\n\n`Fav color?`\n1. `Red` - 3 votes\n2. `Blue` - 1 votes\n") := by
  rfl

/-- A `get_poll` call answered with a payload tuple and an absent or nil slot 1: the reply is
the rendered poll unless the votes loop rejects an entry. -/
theorem handleGetPoll_pollTuple (call : Tarantool) (req : CommandRequest) (f0 : Value)
    (question : GoString) (options : List GoString) (votes : List (Value × Value))
    (f4 f5 f6 : Value) (active : Bool) (f8 f9 : Value) (more tail : List Value)
    (hid : (ParseUint req.Text).isSome)
    (hslot1 : tail = [] ∨ ∃ rest, tail = Value.nil :: rest)
    (h : answeredWith call (handleGetPoll call req)
      (pollTuple f0 question options votes f4 f5 f6 active f8 f9 more :: tail)) :
    (handleGetPoll call req).result =
      match decodeVotes votes [] with
      | none => .failure (.message (utf8 "invalid vote data"))
      | some vs => .reply (renderPoll ⟨idOf f0, question, options, vs, active⟩) := by
  rw [handleGetPoll_answered call req _ hid h]
  have hrej : rejection
      (pollTuple f0 question options votes f4 f5 f6 active f8 f9 more :: tail) = none := by
    rcases hslot1 with rfl | ⟨rest, rfl⟩
    · exact rejection_absent _
    · exact rejection_nil _ _
  rw [hrej]
  exact decodePoll_pollTuple f0 question options votes f4 f5 f6 active f8 f9 more tail

theorem optionLines_eq (votes : List (GoString × Int)) (options : List GoString) :
    ∀ i, optionLines votes i options
      = (options.enumFrom i).flatMap
          fun p => optionLine p.1 p.2 (votesAt votes (FormatInt ((p.1 : Int) + 1))) := by
  induction options with
  | nil => intro i; rfl
  | cons o os ih =>
    intro i
    simp only [optionLines, List.enumFrom_cons, List.flatMap_cons, ih (i + 1), optionLine,
      List.append_assoc]

theorem entry_typed (kv : Value × Value) (h1 : kv.1.isStr = true) (h2 : kv.2.isUint64 = true) :
    ∃ k c, kv = (Value.str k, Value.uint64 c) := by
  obtain ⟨k, v⟩ := kv
  cases k with
  | str s =>
    cases v with
    | uint64 c => exact ⟨s, c, rfl⟩
    | _ => simp [Value.isUint64] at h2
  | _ => simp [Value.isStr] at h1

theorem entry_typed_or (kv : Value × Value) :
    (∃ k c, kv = (Value.str k, Value.uint64 c)) ∨ kv.1.isStr = false ∨ kv.2.isUint64 = false := by
  cases h1 : kv.1.isStr with
  | false => exact Or.inr (Or.inl rfl)
  | true =>
    cases h2 : kv.2.isUint64 with
    | false => exact Or.inr (Or.inr rfl)
    | true => exact Or.inl (entry_typed kv h1 h2)

theorem storedOr_untyped (kv : Value × Value) (rest : List (Value × Value)) (key : GoString)
    (dflt : Int) (h : kv.1.isStr = false ∨ kv.2.isUint64 = false) :
    storedOr (kv :: rest) key dflt = storedOr rest key dflt := by
  obtain ⟨k, v⟩ := kv
  cases k with
  | str s =>
    cases v with
    | uint64 c => simp [Value.isStr, Value.isUint64] at h
    | _ => rfl
  | _ => rfl

theorem storedCount_untyped (kv : Value × Value) (rest : List (Value × Value)) (key : GoString)
    (h : kv.1.isStr = false ∨ kv.2.isUint64 = false) :
    storedCount (kv :: rest) key = storedCount rest key := by
  obtain ⟨k, v⟩ := kv
  cases k with
  | str s =>
    cases v with
    | uint64 c => simp [Value.isStr, Value.isUint64] at h
    | _ => rfl
  | _ => rfl

theorem storedOr_missing (votes : List (Value × Value)) (key : GoString) (dflt : Int)
    (h : Value.str key ∉ votes.map Prod.fst) : storedOr votes key dflt = dflt := by
  induction votes with
  | nil => rfl
  | cons kv votes ih =>
    have h1 : Value.str key ≠ kv.1 := fun e => h (by simp [e])
    have h2 : Value.str key ∉ votes.map Prod.fst := fun e => h (List.mem_cons_of_mem _ e)
    rcases entry_typed_or kv with ⟨k, c, rfl⟩ | hu
    · have hk : ¬ (k = key) := fun e => h1 (by rw [e])
      simp only [storedOr, hk, if_false]
      exact ih h2
    · rw [storedOr_untyped kv votes key dflt hu]
      exact ih h2

theorem storedOr_zero (votes : List (Value × Value)) (key : GoString) :
    storedOr votes key 0 = intOfUint64 (storedCount votes key) := by
  induction votes with
  | nil => rfl
  | cons kv votes ih =>
    rcases entry_typed_or kv with ⟨k, c, rfl⟩ | hu
    · by_cases hk : k = key
      · simp [storedOr, storedCount, hk]
      · simp [storedOr, storedCount, hk, ih]
    · rw [storedOr_untyped kv votes key 0 hu, storedCount_untyped kv votes key hu]
      exact ih

/-- The decoded votes give, for every key, the converted count of the payload entry with that
key (the keys of a map are distinct), or what was there before when the key is missing. -/
theorem votesAt_decodeVotes (votes : List (Value × Value)) :
    ∀ (acc vs : List (GoString × Int)), (votes.map Prod.fst).Nodup →
      decodeVotes votes acc = some vs → ∀ key,
        votesAt vs key = storedOr votes key (votesAt acc key) := by
  induction votes with
  | nil =>
    intro acc vs _ h key
    simp only [decodeVotes, Option.some.injEq] at h
    subst h
    rfl
  | cons kv votes ih =>
    intro acc vs hnd h key
    have hnd' : (votes.map Prod.fst).Nodup := (List.nodup_cons.mp hnd).2
    have hfresh : kv.1 ∉ votes.map Prod.fst := (List.nodup_cons.mp hnd).1
    rcases entry_typed_or kv with ⟨k, c, rfl⟩ | hu
    · simp only [decodeVotes] at h
      rw [ih _ vs hnd' h key]
      by_cases hk : k = key
      · subst hk
        rw [storedOr_missing votes k _ hfresh]
        simp [storedOr, votesAt, List.lookup]
      · have hl : votesAt ((k, intOfUint64 c) :: acc) key = votesAt acc key := by
          have : (key == k) = false := by simpa using fun h => hk h.symm
          simp [votesAt, List.lookup, this]
        simp only [hl, storedOr, hk, if_false]
    · have : decodeVotes (kv :: votes) acc = none :=
        (decodeVotes_eq_none_iff (kv :: votes) acc).mpr ⟨kv, List.mem_cons_self _ _, hu⟩
      rw [this] at h
      cases h

/-- Rendering of a well-typed payload: the header with the id, the status line, an empty line,
the question, and one line per option in the order of the options, numbered from 1; the line
of option `i` shows the count stored under the key that is the decimal numeral of `i` (0 when
the key is missing) after its conversion to `int`. -/
theorem handleGetPoll_renders (call : Tarantool) (req : CommandRequest) (id : Nat)
    (question : GoString) (options : List GoString) (votes : List (Value × Value))
    (f4 f5 f6 : Value) (active : Bool) (f8 f9 : Value) (more tail : List Value)
    (hid : (ParseUint req.Text).isSome)
    (hslot1 : tail = [] ∨ ∃ rest, tail = Value.nil :: rest)
    (htyped : ∀ kv ∈ votes, kv.1.isStr = true ∧ kv.2.isUint64 = true)
    (hkeys : (votes.map Prod.fst).Nodup)
    (h : answeredWith call (handleGetPoll call req)
      (pollTuple (Value.uint64 id) question options votes f4 f5 f6 active f8 f9 more :: tail)) :
    (handleGetPoll call req).result = .reply
      (utf8 "\uF8FFüìä Poll (ID `" ++ FormatUint id ++ utf8 "`)\n"
        ++ (if active then utf8 "‚úÖ Active" else utf8 "‚ùå Closed") ++ utf8 "\n"
        ++ utf8 "\n"
        ++ utf8 "`" ++ question ++ utf8 "`\n"
        ++ (options.enumFrom 0).flatMap fun p =>
            optionLine p.1 p.2 (intOfUint64 (storedCount votes (FormatInt ((p.1 : Int) + 1))))) := by
  rw [handleGetPoll_pollTuple call req _ question options votes f4 f5 f6 active f8 f9 more tail
    hid hslot1 h]
  cases hdv : decodeVotes votes [] with
  | none =>
    obtain ⟨kv, hkv, hbad⟩ := (decodeVotes_eq_none_iff votes []).mp hdv
    have := htyped kv hkv
    rcases hbad with hb | hb
    · rw [this.1] at hb; cases hb
    · rw [this.2] at hb; cases hb
  | some vs =>
    have hat : ∀ key, votesAt vs key = intOfUint64 (storedCount votes key) := by
      intro key
      rw [votesAt_decodeVotes votes [] vs hkeys hdv key]
      exact storedOr_zero votes key
    simp only [renderPoll, idOf, optionLines_eq, hat]

theorem storedCount_bound (votes : List (Value × Value)) (key : GoString) (bound : Nat)
    (hpos : 0 < bound) (h : ∀ kv ∈ votes, ∀ c, kv.2 = Value.uint64 c → c < bound) :
    storedCount votes key < bound := by
  induction votes with
  | nil => exact hpos
  | cons kv votes ih =>
    have ih' := ih (fun kv hkv => h kv (List.mem_cons_of_mem _ hkv))
    rcases entry_typed_or kv with ⟨k, c, rfl⟩ | hu
    · have hc : c < bound := h _ (List.mem_cons_self _ _) c rfl
      by_cases hk : k = key
      · simp [storedCount, hk, hc]
      · simp [storedCount, hk, ih']
    · rw [storedCount_untyped kv votes key hu]
      exact ih'

/-- Round trip below the wrap: when every count of the votes map is below `2^63`, the number
printed on the line of option `i` is exactly the decimal numeral of the count stored under
the key `i` (0 when the key is missing). -/
theorem handleGetPoll_renders_exact (call : Tarantool) (req : CommandRequest) (id : Nat)
    (question : GoString) (options : List GoString) (votes : List (Value × Value))
    (f4 f5 f6 : Value) (active : Bool) (f8 f9 : Value) (more tail : List Value)
    (hid : (ParseUint req.Text).isSome)
    (hslot1 : tail = [] ∨ ∃ rest, tail = Value.nil :: rest)
    (htyped : ∀ kv ∈ votes, kv.1.isStr = true ∧ kv.2.isUint64 = true)
    (hkeys : (votes.map Prod.fst).Nodup)
    (hsmall : ∀ kv ∈ votes, ∀ c, kv.2 = Value.uint64 c → c < 2 ^ 63)
    (h : answeredWith call (handleGetPoll call req)
      (pollTuple (Value.uint64 id) question options votes f4 f5 f6 active f8 f9 more :: tail)) :
    (handleGetPoll call req).result = .reply
      (utf8 "\uF8FFüìä Poll (ID `" ++ FormatUint id ++ utf8 "`)\n"
        ++ (if active then utf8 "‚úÖ Active" else utf8 "‚ùå Closed") ++ utf8 "\n"
        ++ utf8 "\n"
        ++ utf8 "`" ++ question ++ utf8 "`\n"
        ++ (options.enumFrom 0).flatMap fun p =>
            FormatInt ((p.1 : Int) + 1) ++ utf8 ". `" ++ p.2 ++ utf8 "` - "
              ++ FormatUint (storedCount votes (FormatInt ((p.1 : Int) + 1)))
              ++ utf8 " votes\n") := by
  rw [handleGetPoll_renders call req id question options votes f4 f5 f6 active f8 f9 more tail
    hid hslot1 htyped hkeys h]
  have hline : ∀ (p : Nat × GoString),
      optionLine p.1 p.2 (intOfUint64 (storedCount votes (FormatInt ((p.1 : Int) + 1))))
        = FormatInt ((p.1 : Int) + 1) ++ utf8 ". `" ++ p.2 ++ utf8 "` - "
          ++ FormatUint (storedCount votes (FormatInt ((p.1 : Int) + 1)))
          ++ utf8 " votes\n" := by
    intro p
    unfold optionLine
    rw [count_exact_below_wrap _ (storedCount_bound votes _ (2 ^ 63) (by omega) hsmall)]
  simp only [hline]

set_option maxRecDepth 100000 in
/-- C7 fails on the code: the payload of the specification with the count of option 1 set to
`2^63`.  The first option line does not show the stored count: it shows
`-9223372036854775808`. -/
theorem handleGetPoll_option_line_wraps :
    (handleGetPoll
      (constStore [pollTuple (Value.uint64 7) (utf8 "Fav color?") [utf8 "Red", utf8 "Blue"]
        [(Value.str (utf8 "1"), Value.uint64 (2 ^ 63)), (Value.str (utf8 "2"), Value.uint64 1)]
        Value.nil Value.nil Value.nil true Value.nil Value.nil []])
      (sampleRequest "/get-poll" "7")).result
      = .reply (utf8 "\uF8FFüìä Poll (ID `7`)\n‚úÖ Active\n\n`Fav color?`\n1. `Red` - -9223372036854775808 votes\n2. `Blue` - 1 votes\n") := by
  rfl

set_option maxRecDepth 100000 in
/-- C8 fails on the code: one option, and the count `2^64 - 1` stored under the key `1`.  The
number printed on the option line is `-1`, not the stored count, whose numeral is
`18446744073709551615`. -/
theorem handleGetPoll_count_wraps :
    (handleGetPoll
      (constStore [pollTuple (Value.uint64 7) (utf8 "Q") [utf8 "Red"]
        [(Value.str (utf8 "1"), Value.uint64 (2 ^ 64 - 1))]
        Value.nil Value.nil Value.nil true Value.nil Value.nil []])
      (sampleRequest "/get-poll" "7")).result
        = .reply (utf8 "\uF8FFüìä Poll (ID `7`)\n‚úÖ Active\n\n`Q`\n1. `Red` - -1 votes\n")
      ∧ FormatUint (2 ^ 64 - 1) = utf8 "18446744073709551615" :=
  ⟨rfl, by decide⟩

/-- C9, amended: for every `get_poll` payload whose question, options and active flag are
well typed and whose field 3 is a map, answered with slot 1 absent or nil: if some key of the
votes map is not text, decoding fails (the error "invalid vote data" is returned instead of a
rendered poll); if every key is text and every count a `uint64`, decoding succeeds and a
rendered poll is returned, whether or not the keys are decimal strings of integers in
`1..N`. -/
theorem votes_keys_only_typed (call : Tarantool) (req : CommandRequest) (f0 : Value)
    (question : GoString) (options : List GoString) (votes : List (Value × Value))
    (f4 f5 f6 : Value) (active : Bool) (f8 f9 : Value) (more tail : List Value)
    (hid : (ParseUint req.Text).isSome)
    (hslot1 : tail = [] ∨ ∃ rest, tail = Value.nil :: rest)
    (h : answeredWith call (handleGetPoll call req)
      (pollTuple f0 question options votes f4 f5 f6 active f8 f9 more :: tail)) :
    ((∃ kv ∈ votes, kv.1.isStr = false) →
        (handleGetPoll call req).result = .failure (.message (utf8 "invalid vote data")))
      ∧ ((∀ kv ∈ votes, kv.1.isStr = true ∧ kv.2.isUint64 = true) →
        ∃ vs, decodeVotes votes [] = some vs ∧ (handleGetPoll call req).result
          = .reply (renderPoll ⟨idOf f0, question, options, vs, active⟩)) := by
  have hres := handleGetPoll_pollTuple call req f0 question options votes f4 f5 f6 active f8 f9
    more tail hid hslot1 h
  constructor
  · rintro ⟨kv, hkv, hk⟩
    have hnone : decodeVotes votes [] = none :=
      (decodeVotes_eq_none_iff votes []).mpr ⟨kv, hkv, Or.inl hk⟩
    rw [hres, hnone]
  · intro hall
    cases hdv : decodeVotes votes [] with
    | none =>
      obtain ⟨kv, hkv, hbad⟩ := (decodeVotes_eq_none_iff votes []).mp hdv
      have := hall kv hkv
      rcases hbad with hb | hb
      · rw [this.1] at hb; cases hb
      · rw [this.2] at hb; cases hb
    | some vs =>
      rw [hdv] at hres
      exact ⟨vs, rfl, hres⟩

/-- C9, amended, at concrete payloads: a votes map with the integer key 1 makes decoding fail;
a votes map with the text key `1` is decoded. -/
theorem votes_keys_only_typed_witness :
    (handleGetPoll
      (constStore [pollTuple (Value.uint64 7) (utf8 "Q") [utf8 "Red"]
        [(Value.uint64 1, Value.uint64 3)]
        Value.nil Value.nil Value.nil true Value.nil Value.nil []])
      (sampleRequest "/get-poll" "7")).result = .failure (.message (utf8 "invalid vote data")) :=
  (votes_keys_only_typed _ (sampleRequest "/get-poll" "7") (Value.uint64 7) (utf8 "Q")
    [utf8 "Red"] [(Value.uint64 1, Value.uint64 3)] Value.nil Value.nil Value.nil true Value.nil
    Value.nil [] [] (by decide) (Or.inl rfl) (fun _ _ => rfl)).1 ⟨_, List.mem_cons_self _ _, rfl⟩

set_option maxRecDepth 100000 in
/-- C9 as stated fails: a payload with one option whose votes map has the keys `x`, `0` and `2`,
none of them the decimal string of an integer in `1..1`.  Decoding does not fail: the poll is
rendered, the option with 0 votes. -/
theorem votes_stray_keys_counterexample :
    (handleGetPoll
      (constStore [pollTuple (Value.uint64 7) (utf8 "Q") [utf8 "Red"]
        [(Value.str (utf8 "x"), Value.uint64 5), (Value.str (utf8 "0"), Value.uint64 4),
          (Value.str (utf8 "2"), Value.uint64 9)]
        Value.nil Value.nil Value.nil true Value.nil Value.nil []])
      (sampleRequest "/get-poll" "7")).result
      = .reply (utf8 "\uF8FFüìä Poll (ID `7`)\n‚úÖ Active\n\n`Q`\n1. `Red` - 0 votes\n") := by
  rfl

/-! ## Claim C10: numerals round-trip through `parseVote` -/

theorem formatBits_append (fuel : Nat) :
    ∀ (u : Nat) (acc : GoString), formatBits fuel u acc = formatBits fuel u [] ++ acc := by
  induction fuel with
  | zero => intro u acc; rfl
  | succ fuel ih =>
    intro u acc
    unfold formatBits
    by_cases h : u < 10
    · simp [h]
    · simp only [h, if_false]
      rw [ih (u / 10) ((48 + u % 10) :: acc), ih (u / 10) [48 + u % 10]]
      simp

/-- The bytes that the digit loop writes are decimal digits. -/
theorem formatBits_digits (fuel : Nat) :
    ∀ (u : Nat) (acc : GoString), ∀ c ∈ formatBits fuel u acc, c ∈ acc ∨ (48 ≤ c ∧ c ≤ 57) := by
  induction fuel with
  | zero => intro u acc c hc; exact Or.inl hc
  | succ fuel ih =>
    intro u acc c hc
    unfold formatBits at hc
    by_cases h : u < 10
    · simp only [h, if_true, List.mem_cons] at hc
      rcases hc with rfl | hc
      · right; omega
      · exact Or.inl hc
    · simp only [h, if_false] at hc
      rcases ih (u / 10) _ c hc with hmem | hd
      · rcases List.mem_cons.mp hmem with rfl | hmem
        · right; omega
        · exact Or.inl hmem
      · exact Or.inr hd

theorem FormatUint_digits (u : Nat) : ∀ c ∈ FormatUint u, 48 ≤ c ∧ c ≤ 57 := by
  intro c hc
  rcases formatBits_digits (u + 1) u [] c hc with h | h
  · cases h
  · exact h

/-- A numeral starts with a digit. -/
theorem formatBits_head (fuel : Nat) :
    ∀ (u : Nat) (acc : GoString), u < fuel →
      ∃ d rest, formatBits fuel u acc = d :: rest ∧ 48 ≤ d ∧ d ≤ 57 := by
  induction fuel with
  | zero => intro u acc h; omega
  | succ fuel ih =>
    intro u acc hu
    unfold formatBits
    by_cases h : u < 10
    · exact ⟨48 + u, acc, by simp [h], by omega, by omega⟩
    · simp only [h, if_false]
      exact ih (u / 10) _ (by omega)

/-- A numeral ends with a digit. -/
theorem FormatUint_last (u : Nat) : ∃ front d, FormatUint u = front ++ [d] ∧ 48 ≤ d ∧ d ≤ 57 := by
  unfold FormatUint formatBits
  by_cases h : u < 10
  · exact ⟨[], 48 + u, by simp [h], by omega, by omega⟩
  · simp only [h, if_false]
    rw [formatBits_append]
    exact ⟨_, 48 + u % 10, rfl, by omega, by omega⟩

/-- Parsing the digits that the loop wrote for `u` brings the accumulator from 0 to `u`. -/
theorem parseUintLoop_formatBits (fuel : Nat) :
    ∀ (u : Nat) (acc : GoString), u < fuel → u < 2 ^ 64 →
      parseUintLoop 0 (formatBits fuel u acc) = parseUintLoop u acc := by
  induction fuel with
  | zero => intro u acc h; omega
  | succ fuel ih =>
    intro u acc hu h64
    unfold formatBits
    by_cases h : u < 10
    · simp only [h, if_true]
      rw [parseUintLoop]
      have h1 : 48 ≤ 48 + u ∧ 48 + u ≤ 57 := by omega
      have h2 : ¬ (0 ≥ (2 ^ 64 - 1) / 10 + 1) := by omega
      have h3 : (0 * 10 % 2 ^ 64 + (48 + u - 48)) % 2 ^ 64 = u := by omega
      simp only [h1, h2, h3, and_self, if_true, if_false]
      have h4 : ¬ (u < 0 * 10 % 2 ^ 64 ∨ u > 2 ^ 64 - 1) := by omega
      simp only [h4, if_false]
    · simp only [h, if_false]
      rw [ih (u / 10) _ (by omega) (by omega), parseUintLoop]
      have h1 : 48 ≤ 48 + u % 10 ∧ 48 + u % 10 ≤ 57 := by omega
      have h2 : ¬ (u / 10 ≥ (2 ^ 64 - 1) / 10 + 1) := by omega
      have h3 : (u / 10 * 10 % 2 ^ 64 + (48 + u % 10 - 48)) % 2 ^ 64 = u := by omega
      simp only [h1, h2, h3, and_self, if_true, if_false]
      have h4 : ¬ (u < u / 10 * 10 % 2 ^ 64 ∨ u > 2 ^ 64 - 1) := by omega
      simp only [h4, if_false]

/-- The numeral of every unsigned 64-bit integer parses back to it. -/
theorem ParseUint_FormatUint (u : Nat) (h : u < 2 ^ 64) : ParseUint (FormatUint u) = some u := by
  obtain ⟨d, rest, hd, -, -⟩ := formatBits_head (u + 1) u [] (by omega)
  unfold ParseUint
  have hne : FormatUint u ≠ [] := by
    unfold FormatUint
    rw [hd]
    exact List.cons_ne_nil _ _
  rw [if_neg hne]
  unfold FormatUint
  rw [parseUintLoop_formatBits (u + 1) u [] (by omega) h]
  rfl

/-- The numeral of every signed 64-bit integer parses back to it. -/
theorem Atoi_FormatInt (k : Int) (hlo : -2 ^ 63 ≤ k) (hhi : k < 2 ^ 63) :
    Atoi (FormatInt k) = some k := by
  unfold FormatInt
  by_cases hneg : k < 0
  · rw [if_pos hneg]
    unfold Atoi
    have hp : ParseUint (FormatUint (-k).toNat) = some (-k).toNat :=
      ParseUint_FormatUint _ (by omega)
    simp only [decide_True, or_true, if_true, hp]
    have h1 : ¬ ((-k).toNat > 2 ^ 63) := by omega
    simp only [Bool.true_eq_false, false_and, if_false, h1, and_false]
    congr 1
    omega
  · rw [if_neg hneg]
    obtain ⟨d, rest, hd, hd1, hd2⟩ := formatBits_head (k.toNat + 1) k.toNat [] (by omega)
    have hp : ParseUint (FormatUint k.toNat) = some k.toNat :=
      ParseUint_FormatUint _ (by omega)
    have hd' : FormatUint k.toNat = d :: rest := hd
    rw [hd'] at hp ⊢
    unfold Atoi
    have hs : ¬ (d = 43) := by omega
    have hm : ¬ (d = 45) := by omega
    simp only [hs, hm, or_self, if_false, hp, decide_False]
    have h1 : ¬ (k.toNat ≥ 2 ^ 63) := by omega
    simp only [h1, and_false, if_false, Bool.false_eq_true, false_and]
    congr 1
    omega

theorem spaceEncodings_prefixFree :
    ∀ e ∈ spaceEncodings, ∀ e' ∈ spaceEncodings, e' <+: e → e' = e := by
  decide

theorem spaceEncodings_suffixFree :
    ∀ e ∈ spaceEncodings.map List.reverse, ∀ e' ∈ spaceEncodings.map List.reverse,
      e' <+: e → e' = e := by
  decide

/-- No white space character starts with a byte from 33 to 127. -/
theorem spaceEncodings_heads :
    ∀ e ∈ spaceEncodings, ∃ a r, e = a :: r ∧ (a ≤ 32 ∨ 128 ≤ a) := by
  have h : ∀ e ∈ spaceEncodings,
      (match e with
        | a :: _ => decide (a ≤ 32 ∨ 128 ≤ a)
        | [] => false) = true := by decide
  intro e he
  have := h e he
  cases e with
  | nil => simp at this
  | cons a r => exact ⟨a, r, rfl, by simpa using this⟩

/-- No white space character ends with a byte from 33 to 127. -/
theorem spaceEncodings_lasts :
    ∀ e ∈ spaceEncodings.map List.reverse, ∃ a r, e = a :: r ∧ (a ≤ 32 ∨ 128 ≤ a) := by
  have h : ∀ e ∈ spaceEncodings.map List.reverse,
      (match e with
        | a :: _ => decide (a ≤ 32 ∨ 128 ≤ a)
        | [] => false) = true := by decide
  intro e he
  have := h e he
  cases e with
  | nil => simp at this
  | cons a r => exact ⟨a, r, rfl, by simpa using this⟩

theorem leadWidth_of_mem (encs : List GoString)
    (hpf : ∀ e ∈ encs, ∀ e' ∈ encs, e' <+: e → e' = e)
    (e : GoString) (he : e ∈ encs) (s : GoString) :
    leadWidth encs (e ++ s) = e.length := by
  unfold leadWidth
  have hsome : (encs.find? (fun e' => e'.isPrefixOf (e ++ s))).isSome = true :=
    List.find?_isSome.mpr ⟨e, he, List.isPrefixOf_iff_prefix.mpr (List.prefix_append e s)⟩
  obtain ⟨e', he'⟩ := Option.isSome_iff_exists.mp hsome
  have hmem := List.mem_of_find?_eq_some he'
  have hpre : e' <+: e ++ s :=
    List.isPrefixOf_iff_prefix.mp
      (@List.find?_some _ (fun (e' : GoString) => e'.isPrefixOf (e ++ s)) _ _ he')
  have heq : e' = e := by
    rcases List.prefix_or_prefix_of_prefix hpre (List.prefix_append e s) with h | h
    · exact hpf e he e' hmem h
    · exact (hpf e' hmem e he h).symm
  rw [he', heq]

theorem leadWidth_eq_zero (encs : List GoString) (x : Nat) (t : GoString)
    (h : ∀ e ∈ encs, ∃ a r, e = a :: r ∧ a ≠ x) : leadWidth encs (x :: t) = 0 := by
  unfold leadWidth
  have hnone : encs.find? (fun e => e.isPrefixOf (x :: t)) = none := by
    rw [List.find?_eq_none]
    intro e he hp
    obtain ⟨a, r, rfl, hax⟩ := h e he
    have := List.isPrefixOf_iff_prefix.mp hp
    obtain ⟨u, hu⟩ := this
    simp only [List.cons_append, List.cons.injEq] at hu
    exact hax hu.1
  rw [hnone]

theorem stripLeading_flatten (encs : List GoString)
    (hpf : ∀ e ∈ encs, ∀ e' ∈ encs, e' <+: e → e' = e) (hne : ∀ e ∈ encs, e ≠ []) :
    ∀ (ls : List GoString) (fuel : Nat) (core : GoString), (∀ e ∈ ls, e ∈ encs) →
      ls.length ≤ fuel → leadWidth encs core = 0 →
      stripLeading encs fuel (ls.flatten ++ core) = core := by
  intro ls
  induction ls with
  | nil =>
    intro fuel core _ _ hcore
    cases fuel with
    | zero => rfl
    | succ fuel => simp [stripLeading, hcore]
  | cons e ls ih =>
    intro fuel core hmem hfuel hcore
    cases fuel with
    | zero => simp at hfuel
    | succ fuel =>
      have he : e ∈ encs := hmem e (List.mem_cons_self _ _)
      have hw : leadWidth encs (e ++ (ls.flatten ++ core)) = e.length :=
        leadWidth_of_mem encs hpf e he _
      have hpos : e.length ≠ 0 := fun h => hne e he (List.eq_nil_of_length_eq_zero h)
      simp only [List.flatten_cons, List.append_assoc, stripLeading, hw, hpos, if_false]
      rw [List.drop_left' rfl]
      exact ih fuel core (fun e' h => hmem e' (List.mem_cons_of_mem _ h))
        (by simpa using hfuel) hcore

theorem length_le_length_flatten (ls : List GoString) (hne : ∀ e ∈ ls, e ≠ []) :
    ls.length ≤ ls.flatten.length := by
  induction ls with
  | nil => simp
  | cons e ls ih =>
    have he : e ≠ [] := hne e (List.mem_cons_self _ _)
    have hl : 0 < e.length := List.length_pos.mpr he
    have := ih (fun e' h => hne e' (List.mem_cons_of_mem _ h))
    simp only [List.flatten_cons, List.length_cons, List.length_append]
    omega

/-- White space around a text that starts and ends with a byte from 33 to 127 is removed by
`TrimSpace`, and nothing else is. -/
theorem TrimSpace_padded (ls rs : List GoString) (core front back : GoString) (x y : Nat)
    (hx : core = x :: back) (hy : core = front ++ [y])
    (hx1 : 33 ≤ x) (hx2 : x ≤ 127) (hy1 : 33 ≤ y) (hy2 : y ≤ 127)
    (hl : ∀ e ∈ ls, e ∈ spaceEncodings) (hr : ∀ e ∈ rs, e ∈ spaceEncodings) :
    TrimSpace (ls.flatten ++ core ++ rs.flatten) = core := by
  have hne1 : ∀ e ∈ spaceEncodings, e ≠ [] := by
    intro e he
    obtain ⟨a, r, rfl, -⟩ := spaceEncodings_heads e he
    exact List.cons_ne_nil _ _
  have hne2 : ∀ e ∈ spaceEncodings.map List.reverse, e ≠ [] := by
    intro e he
    obtain ⟨a, r, rfl, -⟩ := spaceEncodings_lasts e he
    exact List.cons_ne_nil _ _
  have hleft : stripLeading spaceEncodings (ls.flatten ++ core ++ rs.flatten).length
      (ls.flatten ++ core ++ rs.flatten) = core ++ rs.flatten := by
    rw [List.append_assoc]
    apply stripLeading_flatten spaceEncodings spaceEncodings_prefixFree hne1 ls _ _ hl
    · have := length_le_length_flatten ls (fun e he => hne1 e (hl e he))
      simp only [List.length_append]
      omega
    · rw [hx, List.cons_append]
      apply leadWidth_eq_zero
      intro e he
      obtain ⟨a, r, rfl, ha⟩ := spaceEncodings_heads e he
      exact ⟨a, r, rfl, by omega⟩
  have hrev : (core ++ rs.flatten).reverse
      = ((rs.map List.reverse).reverse).flatten ++ (y :: front.reverse) := by
    rw [List.reverse_append, List.reverse_flatten, hy]
    simp
  have hmemr : ∀ e ∈ (rs.map List.reverse).reverse, e ∈ spaceEncodings.map List.reverse := by
    intro e he
    rw [List.mem_reverse, List.mem_map] at he
    obtain ⟨e0, he0, rfl⟩ := he
    exact List.mem_map.mpr ⟨e0, hr e0 he0, rfl⟩
  have hright : stripLeading (spaceEncodings.map List.reverse) (core ++ rs.flatten).length
      (core ++ rs.flatten).reverse = core.reverse := by
    rw [hrev]
    have hcr : core.reverse = y :: front.reverse := by rw [hy]; simp
    rw [hcr]
    apply stripLeading_flatten _ spaceEncodings_suffixFree hne2 _ _ _ hmemr
    · have h1 := length_le_length_flatten _ (fun e he => hne2 e (hmemr e he))
      have h2 := congrArg List.length hrev
      simp only [List.length_reverse, List.length_append] at h2 h1 ⊢
      omega
    · apply leadWidth_eq_zero
      intro e he
      obtain ⟨a, r, rfl, ha⟩ := spaceEncodings_lasts e he
      exact ⟨a, r, rfl, by omega⟩
  unfold TrimSpace
  simp only [hleft, hright, List.reverse_reverse]

theorem FormatInt_bytes (k : Int) : ∀ c ∈ FormatInt k, c = 45 ∨ (48 ≤ c ∧ c ≤ 57) := by
  intro c hc
  unfold FormatInt at hc
  split at hc
  · rcases List.mem_cons.mp hc with rfl | h
    · exact Or.inl rfl
    · exact Or.inr (FormatUint_digits _ c h)
  · exact Or.inr (FormatUint_digits _ c hc)

theorem FormatInt_last (k : Int) : ∃ front d, FormatInt k = front ++ [d] ∧ 48 ≤ d ∧ d ≤ 57 := by
  unfold FormatInt
  split
  · obtain ⟨front, d, h, h1, h2⟩ := FormatUint_last (-k).toNat
    exact ⟨45 :: front, d, by rw [h]; rfl, h1, h2⟩
  · exact FormatUint_last k.toNat

/-- C10: for every unsigned 64-bit integer `n` and every signed integer `k` of the 64-bit `int`
range, `parseVote` on the decimal numeral of `n`, one space and the decimal numeral of `k`,
with any white space characters before (`ls`) and after (`rs`) the whole text, returns
`(n, k)` and a nil error. -/
theorem parseVote_numerals (n : Nat) (k : Int) (ls rs : List GoString)
    (hn : n < 2 ^ 64) (hlo : -2 ^ 63 ≤ k) (hhi : k < 2 ^ 63)
    (hl : ∀ e ∈ ls, e ∈ spaceEncodings) (hr : ∀ e ∈ rs, e ∈ spaceEncodings) :
    parseVote (ls.flatten ++ (FormatUint n ++ 32 :: FormatInt k) ++ rs.flatten)
      = (n, k, none) := by
  obtain ⟨x, back, hx, hx1, hx2⟩ := formatBits_head (n + 1) n [] (by omega)
  obtain ⟨front, y, hy, hy1, hy2⟩ := FormatInt_last k
  have hx' : FormatUint n = x :: back := hx
  have htrim : TrimSpace (ls.flatten ++ (FormatUint n ++ 32 :: FormatInt k) ++ rs.flatten)
      = FormatUint n ++ 32 :: FormatInt k :=
    TrimSpace_padded ls rs _ (FormatUint n ++ 32 :: front) (back ++ 32 :: FormatInt k) x y
      (by rw [hx']; rfl) (by rw [hy]; simp) (by omega) (by omega) (by omega) (by omega) hl hr
  have hsn : 32 ∉ FormatUint n := fun h => by
    have := FormatUint_digits n 32 h
    omega
  have hsk : 32 ∉ FormatInt k := fun h => by
    have := FormatInt_bytes k 32 h
    omega
  have hsplit : Split 32 (FormatUint n ++ 32 :: FormatInt k) = [FormatUint n, FormatInt k] := by
    rw [Split_append_sep 32 _ _ hsn, Split_no_sep 32 _ hsk]
  unfold parseVote
  simp only [htrim, hsplit]
  simp [ParseUint_FormatUint n hn, Atoi_FormatInt k hlo hhi]

/-- C10 at the input of the specification, `42 2`, and at a padded text. -/
theorem parseVote_numerals_witness :
    parseVote (utf8 "42 2") = (42, 2, none)
      ∧ parseVote (utf8 "\t 18446744073709551615 -9223372036854775808 \n")
        = (2 ^ 64 - 1, -2 ^ 63, none) := by
  have e1 : utf8 "42 2"
      = ([] : List GoString).flatten ++ (FormatUint 42 ++ 32 :: FormatInt 2)
        ++ ([] : List GoString).flatten := by decide
  have e2 : utf8 "\t 18446744073709551615 -9223372036854775808 \n"
      = [[9], [32]].flatten ++ (FormatUint (2 ^ 64 - 1) ++ 32 :: FormatInt (-2 ^ 63))
        ++ [[32], [10]].flatten := by decide
  rw [e1, e2]
  exact ⟨parseVote_numerals 42 2 [] [] (by decide) (by decide) (by decide) (by decide)
      (by decide),
    parseVote_numerals (2 ^ 64 - 1) (-2 ^ 63) [[9], [32]] [[32], [10]]
      (by decide) (by decide) (by decide) (by decide) (by decide)⟩

/-! ## Claims C19 and C20: index bounds and the unchecked opening delimiter -/

/-- Every token takes at least two bytes of the text: the tokens of a text are at most half as
many as its bytes. -/
theorem tokens_length_le :
    ∀ (n : Nat) (s : GoString), s.length ≤ n → (tokens s).length * 2 ≤ s.length := by
  intro n
  induction n with
  | zero =>
    intro s hs
    have : s = [] := List.eq_nil_of_length_eq_zero (by omega)
    subst this
    rw [tokens_of_spaces [] (by simp)]
    simp
  | succ n ih =>
    intro s hs
    rw [tokens_eq]
    cases htok : tokenAt s with
    | none => simp
    | some p =>
      obtain ⟨t, rest⟩ := p
      obtain ⟨hlen, -⟩ := tokenAt_rest _ _ _ htok
      have := ih rest (by omega)
      simp only [List.length_cons]
      omega

/-- With any number of iterations from `len(text) + 1` on, the loop of `parsePoll` ends by
itself with the same result: the first token and the tokens after it. -/
theorem parsePollLoop_enough (text : GoString) (fuel : Nat) (h : text.length + 1 ≤ fuel) :
    parsePollLoop text fuel 0 [] [] = ((tokens text).headD [], (tokens text).tail) := by
  obtain ⟨f, rfl⟩ : ∃ f, fuel = f + 1 := ⟨fuel - 1, by omega⟩
  unfold parsePollLoop
  simp only [Int.reduceNeg, reduceCtorEq, if_true, if_false]
  rw [parseToken_eq, tokens_eq text]
  simp only [List.drop_zero]
  cases htok : tokenAt text with
  | none =>
    simp only []
    cases f with
    | zero => rfl
    | succ f => simp [parsePollLoop]
  | some p =>
    obtain ⟨t, rest⟩ := p
    obtain ⟨hlen, hdrop⟩ := tokenAt_rest _ _ _ htok
    simp only []
    rw [parsePollLoop_options text _ _ _ _ (by omega) (by omega) (by omega), hdrop]
    simp

/-- The index that `parseToken` returns, and the slice it takes, stay inside the text. -/
theorem parseToken_bounds (text : GoString) (i : Nat) :
    parseToken i text = ([], -1)
      ∨ ∃ start j : Nat,
          parseToken i text = ((text.drop start).take (j - 1 - start), (j : Int))
            ∧ i + 2 ≤ j ∧ j ≤ text.length ∧ i < start ∧ start ≤ j - 1 ∧ j - 1 < text.length := by
  unfold parseToken
  simp only []
  rw [advanceWhile_eq _ _ _ _ (le_refl _), advanceWhile_eq _ _ _ _ (le_refl _)]
  generalize ((text.drop i).takeWhile (fun c => c == 32)).length = k
  generalize ((text.drop (i + k + 1)).takeWhile (fun c => c != 34)).length = m
  by_cases hend : i + k + 1 + m ≥ text.length
  · left
    rw [if_pos hend]
  · right
    rw [if_neg hend]
    refine ⟨i + k + 1, i + k + 1 + m + 1, ?_, by omega, by omega, by omega, by omega, by omega⟩
    have e1 : i + k + 1 + m - (i + k + 1) = m := by omega
    have e2 : i + k + 1 + m + 1 - 1 - (i + k + 1) = m := by omega
    rw [e1, e2]
    push_cast
    rfl

/-- C19: `parsePoll` terminates on every text and never slices out of range.  For every text
and every index `i`, `parseToken(i, text)` returns the sentinel `-1` or a new index `j` with
`i + 2 ≤ j ≤ len(text)` and the token `text[start:j-1]` with `i < start ≤ j-1 < len(text)`, so
the index grows in every iteration; the loop of `parsePoll` ends by itself within
`len(text) + 1` iterations (more iterations change nothing); and the options returned are at
most `len(text) / 2`. -/
theorem parseToken_in_range (text : GoString) (i : Nat) :
    (parseToken i text = ([], -1)
      ∨ ∃ start j : Nat,
          parseToken i text = ((text.drop start).take (j - 1 - start), (j : Int))
            ∧ i + 2 ≤ j ∧ j ≤ text.length ∧ i < start ∧ start ≤ j - 1 ∧ j - 1 < text.length)
      ∧ (∀ fuel, text.length + 1 ≤ fuel → parsePollLoop text fuel 0 [] [] = parsePoll text)
      ∧ (parsePoll text).2.length ≤ text.length / 2 := by
  refine ⟨parseToken_bounds text i, ?_, ?_⟩
  · intro fuel h
    rw [parsePollLoop_enough text fuel h, parsePoll_eq_tokens]
  · rw [parsePoll_eq_tokens]
    have h := tokens_length_le text.length text (le_refl _)
    simp only [List.length_tail]
    omega

theorem tokenAt_delimiter (sp rest : GoString) (x c : Nat) (hsp : ∀ b ∈ sp, b = 32)
    (hx : x ≠ 32) (hc : c ≠ 32) : tokenAt (sp ++ x :: rest) = tokenAt (sp ++ c :: rest) := by
  unfold tokenAt
  rw [dropWhile_spaces_append sp x rest hsp hx, dropWhile_spaces_append sp c rest hsp hc]
  rfl

/-- C20: the opening delimiter is consumed without being checked.  Let the text from index
`len(pre)` on consist of spaces `sp`, a first byte `x` that is not a space, and `rest`.
Replacing `x` by any byte `c` other than the space does not change the result of
`parseToken(len(pre), text)`; and `parsePoll` of the text `sp x rest` equals `parsePoll` of the
text with `x` replaced by a double quote. -/
theorem parseToken_delimiter_unchecked (pre sp rest : GoString) (x c : Nat)
    (hsp : ∀ b ∈ sp, b = 32) (hx : x ≠ 32) (hc : c ≠ 32) :
    parseToken pre.length (pre ++ (sp ++ x :: rest))
        = parseToken pre.length (pre ++ (sp ++ c :: rest))
      ∧ parsePoll (sp ++ x :: rest) = parsePoll (sp ++ 34 :: rest) := by
  constructor
  · rw [parseToken_eq, parseToken_eq, List.drop_left' rfl, List.drop_left' rfl,
      tokenAt_delimiter sp rest x c hsp hx hc]
    simp
  · rw [parsePoll_eq_tokens, parsePoll_eq_tokens, tokens_eq (sp ++ x :: rest),
      tokens_eq (sp ++ 34 :: rest), tokenAt_delimiter sp rest x 34 hsp hx (by decide)]

/-- C20 at the input of the claim: `xQ" "A"` parses like `"Q" "A"`, and the first token is the
same whichever byte opens it. -/
theorem parseToken_delimiter_unchecked_witness :
    parseToken 0 (utf8 "xQ\" \"A\"") = parseToken 0 (utf8 "\"Q\" \"A\"")
      ∧ parsePoll (utf8 "xQ\" \"A\"") = parsePoll (utf8 "\"Q\" \"A\"") :=
  parseToken_delimiter_unchecked [] [] (utf8 "Q\" \"A\"") 120 34 (by decide) (by decide)
    (by decide)

/-! ## Claims C11 and C12: the errors of `parseVote` -/

/-- A split at a separator gives one piece more than there are separators. -/
theorem Split_length (sep : Nat) (s : GoString) : (Split sep s).length = s.count sep + 1 := by
  induction s with
  | nil => simp [Split]
  | cons c s ih =>
    unfold Split
    by_cases hc : c = sep
    · subst hc
      simp [ih]
    · have hne : (c == sep) = false := by simpa using hc
      simp only [hc, if_false, List.count_cons, hne]
      cases hs : Split sep s with
      | nil => exact absurd hs (Split_ne_nil sep s)
      | cons t ts =>
        rw [hs] at ih
        simpa using ih

theorem decimalFrom_ge (s : GoString) : ∀ n, n ≤ decimalFrom n s := by
  induction s with
  | nil => intro n; exact le_refl _
  | cons c s ih =>
    intro n
    have := ih (n * 10 + (c - 48))
    simp only [decimalFrom, List.foldl_cons] at this ⊢
    omega

/-- What the digit loop of `ParseUint` computes. -/
theorem parseUintLoop_eq_some_iff (s : GoString) :
    ∀ (n v : Nat), n < 2 ^ 64 →
      (parseUintLoop n s = some v
        ↔ (∀ c ∈ s, 48 ≤ c ∧ c ≤ 57) ∧ decimalFrom n s = v ∧ v < 2 ^ 64) := by
  induction s with
  | nil =>
    intro n v hn
    simp only [parseUintLoop, Option.some.injEq, List.not_mem_nil, false_implies, implies_true,
      true_and, decimalFrom, List.foldl_nil]
    constructor
    · rintro rfl; exact ⟨rfl, hn⟩
    · rintro ⟨rfl, -⟩; rfl
  | cons c s ih =>
    intro n v hn
    have hge := decimalFrom_ge s (n * 10 + (c - 48))
    have hstep : decimalFrom n (c :: s) = decimalFrom (n * 10 + (c - 48)) s := rfl
    rw [parseUintLoop, hstep]
    by_cases hd : 48 ≤ c ∧ c ≤ 57
    · rw [if_pos hd]
      by_cases hcut : n ≥ (2 ^ 64 - 1) / 10 + 1
      · rw [if_pos hcut]
        constructor
        · intro h; cases h
        · rintro ⟨-, hv, hlt⟩
          omega
      · rw [if_neg hcut]
        simp only []
        have h10 : n * 10 % 2 ^ 64 = n * 10 := Nat.mod_eq_of_lt (by omega)
        rw [h10]
        by_cases hfit : n * 10 + (c - 48) < 2 ^ 64
        · have h1 : (n * 10 + (c - 48)) % 2 ^ 64 = n * 10 + (c - 48) := Nat.mod_eq_of_lt hfit
          rw [h1]
          have hno : ¬ (n * 10 + (c - 48) < n * 10 ∨ n * 10 + (c - 48) > 2 ^ 64 - 1) := by omega
          rw [if_neg hno, ih (n * 10 + (c - 48)) v hfit]
          constructor
          · rintro ⟨h1, h2, h3⟩
            exact ⟨fun c' hc' => by
              rcases List.mem_cons.mp hc' with rfl | h
              · exact hd
              · exact h1 c' h, h2, h3⟩
          · rintro ⟨h1, h2, h3⟩
            exact ⟨fun c' hc' => h1 c' (List.mem_cons_of_mem _ hc'), h2, h3⟩
        · have hwrap : (n * 10 + (c - 48)) % 2 ^ 64 < n * 10 := by omega
          rw [if_pos (Or.inl hwrap)]
          constructor
          · intro h; cases h
          · rintro ⟨-, hv, hlt⟩
            omega
    · rw [if_neg hd]
      constructor
      · intro h; cases h
      · rintro ⟨h1, -, -⟩
        exact absurd (h1 c (List.mem_cons_self _ _)) hd

/-- Function `ParseUint` succeeds exactly on the base-10 numerals of unsigned 64-bit integers,
with their value. -/
theorem ParseUint_eq_some_iff (s : GoString) (v : Nat) :
    ParseUint s = some v ↔ isUint64Numeral s ∧ decimalValue s = v := by
  unfold ParseUint isUint64Numeral decimalValue
  by_cases hs : s = []
  · simp [hs]
  · rw [if_neg hs, parseUintLoop_eq_some_iff s 0 v (by omega)]
    constructor
    · rintro ⟨h1, h2, h3⟩
      exact ⟨⟨hs, h1, by rw [h2]; exact h3⟩, h2⟩
    · rintro ⟨⟨-, h1, h3⟩, h2⟩
      exact ⟨h1, h2, by rw [← h2]; exact h3⟩

theorem ParseUint_eq_none_iff (s : GoString) : ParseUint s = none ↔ ¬ isUint64Numeral s := by
  constructor
  · intro h hnum
    have := (ParseUint_eq_some_iff s (decimalValue s)).mpr ⟨hnum, rfl⟩
    rw [h] at this
    cases this
  · intro h
    cases hp : ParseUint s with
    | none => rfl
    | some v => exact absurd ((ParseUint_eq_some_iff s v).mp hp).1 h

/-- Function `Atoi` fails on every text that is not a signed decimal integer. -/
theorem Atoi_eq_none_of_not_signed (s : GoString) (h : ¬ isSignedDecimal s) : Atoi s = none := by
  cases s with
  | nil => rfl
  | cons c rest =>
    have hbody : ParseUint (if c = 43 ∨ c = 45 then rest else c :: rest) = none := by
      rw [ParseUint_eq_none_iff]
      intro hnum
      exact h ⟨hnum.1, hnum.2.1⟩
    unfold Atoi
    simp only [hbody]

/-- Every failing call of `parseVote` returns the poll id 0 and the option index -1. -/
theorem parseVote_failure_values (text : GoString) (h : (parseVote text).2.2 ≠ none) :
    (parseVote text).1 = 0 ∧ (parseVote text).2.1 = -1 := by
  unfold parseVote at h ⊢
  simp only [] at h ⊢
  split
  · exact ⟨rfl, rfl⟩
  · split
    · exact ⟨rfl, rfl⟩
    · split
      · exact ⟨rfl, rfl⟩
      · rename_i hlen _ n hn _ k hk
        rw [if_neg hlen, hn] at h
        simp only [] at h
        rw [hk] at h
        exact absurd rfl h

/-- C11, amended: `parseVote` fails with the invalid-format error if and only if the text,
after `TrimSpace` has removed its leading and trailing white space, does not contain exactly
one space character, that is, does not split at the single spaces into exactly two pieces. -/
theorem parseVote_invalid_format_iff (text : GoString) :
    (parseVote text).2.2 = some (utf8 "invalid input format")
      ↔ (TrimSpace text).count 32 ≠ 1 := by
  have hlen := Split_length 32 (TrimSpace text)
  unfold parseVote
  simp only []
  by_cases h2 : (Split 32 (TrimSpace text)).length ≠ 2
  · rw [if_pos h2]
    constructor
    · intro _; omega
    · intro _; rfl
  · rw [if_neg h2]
    have hc : ¬ ((TrimSpace text).count 32 ≠ 1) := by omega
    constructor
    · intro h
      exfalso
      split at h
      · exact absurd h (by decide)
      · split at h
        · exact absurd h (by decide)
        · cases h
    · intro h; exact absurd h hc

/-- C11 as stated fails: `42  2` (two spaces) and `42<tab>2` each consist of exactly two
tokens separated by a run of white space, and `parseVote` fails on both with the
invalid-format error. -/
theorem parseVote_runs_counterexample :
    whitespaceTokens (utf8 "42  2") = [utf8 "42", utf8 "2"]
      ∧ parseVote (utf8 "42  2") = (0, -1, some (utf8 "invalid input format"))
      ∧ whitespaceTokens (utf8 "42\t2") = [utf8 "42", utf8 "2"]
      ∧ parseVote (utf8 "42\t2") = (0, -1, some (utf8 "invalid input format")) := by
  decide

/-- C12, amended: for every text of the form `a`, one space, `b` (`a` and `b` not empty and
free of spaces) that has no leading or trailing white space (`TrimSpace` leaves it unchanged):
if `a` is not a base-10 numeral of an unsigned 64-bit integer, `parseVote` fails with the
invalid-poll-ID error whatever `b` is; if `a` is such a numeral and `b` is not a signed decimal
integer, it fails with the invalid-option-index error.  And on every text, a failing call
returns the poll id 0 and the option index -1. -/
theorem parseVote_token_errors (a b : GoString) (_ha0 : a ≠ []) (_hb0 : b ≠ [])
    (ha : 32 ∉ a) (hb : 32 ∉ b) (htrim : TrimSpace (a ++ 32 :: b) = a ++ 32 :: b) :
    (¬ isUint64Numeral a →
        parseVote (a ++ 32 :: b) = (0, -1, some (utf8 "invalid poll ID")))
      ∧ (isUint64Numeral a → ¬ isSignedDecimal b →
        parseVote (a ++ 32 :: b) = (0, -1, some (utf8 "invalid option index")))
      ∧ ∀ text, (parseVote text).2.2 ≠ none →
          (parseVote text).1 = 0 ∧ (parseVote text).2.1 = -1 := by
  have hsplit : Split 32 (a ++ 32 :: b) = [a, b] := by
    rw [Split_append_sep 32 _ _ ha, Split_no_sep 32 _ hb]
  refine ⟨?_, ?_, parseVote_failure_values⟩
  · intro hnum
    have hp : ParseUint a = none := (ParseUint_eq_none_iff a).mpr hnum
    unfold parseVote
    simp only [htrim, hsplit]
    simp [hp]
  · intro hnum hsigned
    have hp : ParseUint a = some (decimalValue a) :=
      (ParseUint_eq_some_iff a _).mpr ⟨hnum, rfl⟩
    have hq : Atoi b = none := Atoi_eq_none_of_not_signed b hsigned
    unfold parseVote
    simp only [htrim, hsplit]
    simp [hp, hq]

/-- C12, amended, at the input of the specification, `abc 2`, and at `42 x`. -/
theorem parseVote_token_errors_witness :
    parseVote (utf8 "abc 2") = (0, -1, some (utf8 "invalid poll ID"))
      ∧ parseVote (utf8 "42 x") = (0, -1, some (utf8 "invalid option index")) :=
  ⟨(parseVote_token_errors (utf8 "abc") (utf8 "2") (by decide) (by decide) (by decide)
      (by decide) (by decide)).1 (fun h => absurd (h.2.1 97 (by decide)) (by decide)),
   (parseVote_token_errors (utf8 "42") (utf8 "x") (by decide) (by decide) (by decide)
      (by decide) (by decide)).2.1
      ⟨by decide, by decide, by decide⟩
      (fun h => absurd (h.2 120 (by decide)) (by decide))⟩

/-- C12 as stated fails: in `<tab>5 2` the part before the space is `<tab>5`, which is not
empty, has no space and is not a numeral, and `parseVote` returns `(5, 2)` with a nil error;
in `<tab> 2` the part before the space is a tab, and the error is the invalid-format error,
not the invalid-poll-ID error. -/
theorem parseVote_padded_counterexample :
    ParseUint (utf8 "\t5") = none
      ∧ parseVote (utf8 "\t5 2") = (5, 2, none)
      ∧ ParseUint (utf8 "\t") = none
      ∧ parseVote (utf8 "\t 2") = (0, -1, some (utf8 "invalid input format")) := by
  decide

/-! ## Claims C13 to C16 and C18: dispatch, malformed text, poll creation, unused fields -/

theorem trimSlash_slash (t : GoString) : trimSlash (47 :: t) = t := rfl

theorem trimSlash_other (t : GoString) (h : t.head? ≠ some 47) : trimSlash t = t := by
  unfold trimSlash
  split
  · rename_i s
    simp at h
  · rfl

/-- C13: dispatch in `handleCommandRequest`, for every decoded form request and every handler
table.  The lookup key is the command name with one optional leading slash removed, so `/t`
and `t` give the same key `t` for every trigger `t` that does not start with a slash.  If the
key is not in the table the answer is not-found (404) and no handler runs (no remote call is
issued); if the selected handler returns an error the answer is internal-error (500) with that
error; if it returns a reply the answer is success carrying exactly that reply text. -/
theorem dispatch_outcomes (commands : GoString → Option CommandHandler)
    (payload : CommandRequest) :
    (∀ t : GoString, t.head? ≠ some 47 → trimSlash (47 :: t) = t ∧ trimSlash t = t)
      ∧ (commands (trimSlash payload.Command) = none →
          handleCommandRequest commands payload = ⟨[], .notFound⟩)
      ∧ (∀ handler err, commands (trimSlash payload.Command) = some handler →
          (handler payload).result = .failure err →
          (handleCommandRequest commands payload).response = .internalServerError err)
      ∧ (∀ handler t, commands (trimSlash payload.Command) = some handler →
          (handler payload).result = .reply t →
          (handleCommandRequest commands payload).response = .ok t) := by
  refine ⟨fun t ht => ⟨trimSlash_slash t, trimSlash_other t ht⟩, ?_, ?_, ?_⟩
  · intro h
    unfold handleCommandRequest
    simp only [h]
  · intro handler err hc hr
    exact handleCommandRequest_failure commands payload handler err hc hr
  · intro handler t hc hr
    exact handleCommandRequest_reply commands payload handler t hc hr

/-- C13 at concrete requests: with the only trigger `vote` in the table, `/nope` is answered
with not-found, and `/vote` and `vote` with the reply of the vote handler. -/
theorem dispatch_outcomes_witness :
    handleCommandRequest (sampleTable (constStore [])) (sampleRequest "/nope" "42 2")
        = ⟨[], .notFound⟩
      ∧ (handleCommandRequest (sampleTable (constStore [])) (sampleRequest "/vote" "42 2")).response
        = .ok (utf8 "Successfully voted for option 2 in the poll 42")
      ∧ (handleCommandRequest (sampleTable (constStore [])) (sampleRequest "vote" "42 2")).response
        = .ok (utf8 "Successfully voted for option 2 in the poll 42") :=
  ⟨(dispatch_outcomes (sampleTable (constStore [])) (sampleRequest "/nope" "42 2")).2.1 rfl,
   (dispatch_outcomes (sampleTable (constStore [])) (sampleRequest "/vote" "42 2")).2.2.2
      (handleVote (constStore [])) _ rfl rfl,
   (dispatch_outcomes (sampleTable (constStore [])) (sampleRequest "vote" "42 2")).2.2.2
      (handleVote (constStore [])) _ rfl rfl⟩

/-- C14: malformed command text is never fatal.  For `handleVote` with any text on which
`parseVote` fails, and for `handleGetPoll`, `handleClosePoll` and `handleDeletePoll` with any
text that is not a base-10 numeral of an unsigned 64-bit integer, the handler returns a nil
error and a reply that starts with the failure marker, and issues no remote call. -/
theorem malformed_text_replies (call : Tarantool) (vote req : CommandRequest)
    (hv : (parseVote vote.Text).2.2 ≠ none) (hreq : ¬ isUint64Numeral req.Text) :
    (∃ err, (parseVote vote.Text).2.2 = some err
        ∧ handleVote call vote = ⟨[], .reply (failureMarker ++ utf8 " " ++ err)⟩)
      ∧ handleGetPoll call req
          = ⟨[], .reply (failureMarker ++ utf8 " Invalid poll ID format")⟩
      ∧ handleClosePoll call req
          = ⟨[], .reply (failureMarker ++ utf8 " Invalid poll ID format")⟩
      ∧ handleDeletePoll call req
          = ⟨[], .reply (failureMarker ++ utf8 " Invalid poll ID format")⟩ := by
  have hp : ParseUint req.Text = none := (ParseUint_eq_none_iff _).mpr hreq
  refine ⟨?_, ?_, ?_, ?_⟩
  · rcases hpv : parseVote vote.Text with ⟨pollID, optionIndex, err⟩
    rw [hpv] at hv
    cases err with
    | none => exact absurd rfl hv
    | some e =>
      refine ⟨e, rfl, ?_⟩
      unfold handleVote
      rw [hpv]
  · unfold handleGetPoll
    rw [hp]
  · unfold handleClosePoll
    rw [hp]
  · unfold handleDeletePoll
    rw [hp]

/-- C14 at concrete texts: `42` for the vote handler, `abc` for the three others. -/
theorem malformed_text_replies_witness :
    handleVote (constStore []) (sampleRequest "/vote" "42")
        = ⟨[], .reply (failureMarker ++ utf8 " invalid input format")⟩
      ∧ handleGetPoll (constStore []) (sampleRequest "/get-poll" "abc")
        = ⟨[], .reply (failureMarker ++ utf8 " Invalid poll ID format")⟩ := by
  have h := malformed_text_replies (constStore []) (sampleRequest "/vote" "42")
    (sampleRequest "/get-poll" "abc") (by decide)
    (fun h => absurd (h.2.1 97 (by decide)) (by decide))
  exact ⟨rfl, h.2.1⟩

theorem formatOptionsFrom_eq (options : List GoString) :
    ∀ i, formatOptionsFrom i options
      = (options.enumFrom i).flatMap fun p => optionItem p.1 p.2 := by
  induction options with
  | nil => intro i; rfl
  | cons o os ih =>
    intro i
    simp only [formatOptionsFrom, List.enumFrom_cons, List.flatMap_cons, ih (i + 1), optionItem,
      List.append_assoc]

/-- The replies of `handlePoll`: a marked rejection without a call, or the created text. -/
theorem handlePoll_reply_cases (call : Tarantool) (req : CommandRequest) (t : GoString)
    (h : (handlePoll call req).result = .reply t) :
    (∃ u, t = failureMarker ++ u)
      ∨ ((parsePoll req.Text).1 ≠ [] ∧ (parsePoll req.Text).2 ≠ [] ∧ ∃ pollID,
          t = utf8 "\uF8FFüó≥Ô∏è *Poll Created* (ID: `" ++ FormatUint pollID ++ utf8 "`)\n\n**`"
            ++ (parsePoll req.Text).1 ++ utf8 "`**\n" ++ formatOptions (parsePoll req.Text).2
            ++ utf8 "\n") := by
  unfold handlePoll at h
  simp only [] at h
  by_cases hq : (parsePoll req.Text).1 = []
  · rw [if_pos hq] at h
    simp only [HandlerResult.reply.injEq] at h
    exact Or.inl ⟨_, h.symm⟩
  · rw [if_neg hq] at h
    by_cases ho : (parsePoll req.Text).2 = []
    · rw [if_pos ho] at h
      simp only [HandlerResult.reply.injEq] at h
      exact Or.inl ⟨_, h.symm⟩
    · rw [if_neg ho] at h
      simp only [] at h
      right
      refine ⟨hq, ho, ?_⟩
      split at h
      · cases h
      · split at h
        · cases h
        · split at h
          · cases h
          · cases h
          · simp only [HandlerResult.reply.injEq] at h
            exact ⟨_, h.symm⟩
          · cases h
          · simp only [HandlerResult.reply.injEq] at h
            exact ⟨0, h.symm⟩

/-- C15: for every request text, `handlePoll` issues the `create_poll` call only when
`parsePoll` yields a non-empty question and at least one option; otherwise it returns a reply
that starts with the failure marker, with a nil error, and makes no call.  So every reply that
is not a marked rejection is the "Poll Created" text, and it lists a non-empty sequence of
options, numbered from 1 in the order in which `parsePoll` returned them. -/
theorem handlePoll_calls_only_with_options (call : Tarantool) (req : CommandRequest) :
    (((parsePoll req.Text).1 = [] ∨ (parsePoll req.Text).2 = []) →
        (handlePoll call req).calls = []
          ∧ ∃ u, (handlePoll call req).result = .reply (failureMarker ++ u))
      ∧ ((handlePoll call req).calls ≠ [] →
        (parsePoll req.Text).1 ≠ [] ∧ (parsePoll req.Text).2 ≠ []
          ∧ (handlePoll call req).calls = [⟨utf8 "create_poll",
              [Value.str req.UserID, Value.str req.ChannelID, Value.str (parsePoll req.Text).1,
                Value.strings (parsePoll req.Text).2]⟩])
      ∧ (∀ t, (handlePoll call req).result = .reply t → (¬ ∃ u, t = failureMarker ++ u) →
        (parsePoll req.Text).2 ≠ [] ∧ ∃ pollID,
          t = utf8 "\uF8FFüó≥Ô∏è *Poll Created* (ID: `" ++ FormatUint pollID ++ utf8 "`)\n\n**`"
            ++ (parsePoll req.Text).1 ++ utf8 "`**\n"
            ++ (((parsePoll req.Text).2.enumFrom 0).flatMap fun p => optionItem p.1 p.2)
            ++ utf8 "\n") := by
  refine ⟨?_, ?_, ?_⟩
  · intro h
    unfold handlePoll
    simp only []
    by_cases hq : (parsePoll req.Text).1 = []
    · rw [if_pos hq]
      exact ⟨rfl, _, rfl⟩
    · rw [if_neg hq]
      have ho : (parsePoll req.Text).2 = [] := h.resolve_left hq
      rw [if_pos ho]
      exact ⟨rfl, _, rfl⟩
  · intro h
    unfold handlePoll at h ⊢
    simp only [] at h ⊢
    by_cases hq : (parsePoll req.Text).1 = []
    · rw [if_pos hq] at h
      exact absurd rfl h
    · rw [if_neg hq] at h ⊢
      by_cases ho : (parsePoll req.Text).2 = []
      · rw [if_pos ho] at h
        exact absurd rfl h
      · rw [if_neg ho]
        exact ⟨hq, ho, rfl⟩
  · intro t h hmark
    rcases handlePoll_reply_cases call req t h with hm | ⟨-, ho, pollID, ht⟩
    · exact absurd hm hmark
    · refine ⟨ho, pollID, ?_⟩
      rw [ht, formatOptions, formatOptionsFrom_eq]

set_option maxRecDepth 100000 in
/-- C15 at concrete texts: `"Q"` alone is rejected without a call; for `"Q" "A" "B"` the call
is issued and the reply lists `1. A` and `2. B`. -/
theorem handlePoll_calls_only_with_options_witness :
    (handlePoll (constStore [Value.array [Value.uint64 5]]) (sampleRequest "/poll" "\"Q\"")).calls
        = []
      ∧ (handlePoll (constStore [Value.array [Value.uint64 5]])
          (sampleRequest "/poll" "\"Q\" \"A\" \"B\"")).result
        = .reply (utf8 "\uF8FFüó≥Ô∏è *Poll Created* (ID: `5`)\n\n**`Q`**\n1. `A`\n2. `B`\n\n") :=
  ⟨((handlePoll_calls_only_with_options (constStore [Value.array [Value.uint64 5]])
      (sampleRequest "/poll" "\"Q\"")).1 (Or.inr (by decide))).1, rfl⟩

theorem rejection_none_of_slot1 (payload : Value) (tail : List Value)
    (h : tail = [] ∨ ∃ rest, tail = Value.nil :: rest) : rejection (payload :: tail) = none := by
  rcases h with rfl | ⟨rest, rfl⟩
  · exact rejection_absent _
  · exact rejection_nil _ _

/-- The decode reads the fields 0, 1, 2, 3 and 7 of the payload tuple and nothing else. -/
theorem decodePoll_reads_five_fields (pd1 pd2 tail1 tail2 : List Value)
    (hlen1 : 10 ≤ pd1.length) (hlen2 : 10 ≤ pd2.length)
    (h0 : pd1.getD 0 Value.nil = pd2.getD 0 Value.nil)
    (h1 : pd1.getD 1 Value.nil = pd2.getD 1 Value.nil)
    (h2 : pd1.getD 2 Value.nil = pd2.getD 2 Value.nil)
    (h3 : pd1.getD 3 Value.nil = pd2.getD 3 Value.nil)
    (h7 : pd1.getD 7 Value.nil = pd2.getD 7 Value.nil) :
    decodePoll (Value.array pd1 :: tail1) = decodePoll (Value.array pd2 :: tail2) := by
  unfold decodePoll
  simp only [show ¬ pd1.length < 10 from by omega, show ¬ pd2.length < 10 from by omega,
    if_false, h0, h1, h2, h3, h7]

/-- C16: fields 4, 5, 6, 8, 9 and the fields beyond index 9 are not interpreted.  For any two
`get_poll` outcomes with slot 1 absent (or nil) whose payload tuples have at least 10 fields
and agree on the fields 0, 1, 2, 3 and 7, `handleGetPoll` ends the same way: the same reply
or the same error. -/
theorem unused_fields_not_interpreted (call1 call2 : Tarantool) (req1 req2 : CommandRequest)
    (pd1 pd2 tail1 tail2 : List Value)
    (hid1 : (ParseUint req1.Text).isSome) (hid2 : (ParseUint req2.Text).isSome)
    (hlen1 : 10 ≤ pd1.length) (hlen2 : 10 ≤ pd2.length)
    (h0 : pd1.getD 0 Value.nil = pd2.getD 0 Value.nil)
    (h1 : pd1.getD 1 Value.nil = pd2.getD 1 Value.nil)
    (h2 : pd1.getD 2 Value.nil = pd2.getD 2 Value.nil)
    (h3 : pd1.getD 3 Value.nil = pd2.getD 3 Value.nil)
    (h7 : pd1.getD 7 Value.nil = pd2.getD 7 Value.nil)
    (hs1 : tail1 = [] ∨ ∃ rest, tail1 = Value.nil :: rest)
    (hs2 : tail2 = [] ∨ ∃ rest, tail2 = Value.nil :: rest)
    (ha1 : answeredWith call1 (handleGetPoll call1 req1) (Value.array pd1 :: tail1))
    (ha2 : answeredWith call2 (handleGetPoll call2 req2) (Value.array pd2 :: tail2)) :
    (handleGetPoll call1 req1).result = (handleGetPoll call2 req2).result := by
  rw [handleGetPoll_answered call1 req1 _ hid1 ha1, handleGetPoll_answered call2 req2 _ hid2 ha2,
    rejection_none_of_slot1 _ _ hs1, rejection_none_of_slot1 _ _ hs2]
  exact decodePoll_reads_five_fields pd1 pd2 tail1 tail2 hlen1 hlen2 h0 h1 h2 h3 h7

/-- C16 at two concrete payloads that differ in the fields 4, 5, 6, 8, 9 and in a field
beyond index 9. -/
theorem unused_fields_not_interpreted_witness :
    (handleGetPoll
      (constStore [pollTuple (Value.uint64 7) (utf8 "Q") [utf8 "Red"]
        [(Value.str (utf8 "1"), Value.uint64 3)]
        Value.nil Value.nil Value.nil true Value.nil Value.nil []])
      (sampleRequest "/get-poll" "7")).result
    = (handleGetPoll
      (constStore [pollTuple (Value.uint64 7) (utf8 "Q") [utf8 "Red"]
        [(Value.str (utf8 "1"), Value.uint64 3)]
        (Value.str (utf8 "alice")) (Value.uint64 1) (Value.bool false) true
        (Value.array []) (Value.int64 (-1)) [Value.str (utf8 "extra")]])
      (sampleRequest "/get-poll" "7")).result :=
  unused_fields_not_interpreted _ _ (sampleRequest "/get-poll" "7")
    (sampleRequest "/get-poll" "7")
    ([Value.uint64 7, Value.str (utf8 "Q"), Value.array (List.map Value.str [utf8 "Red"]),
      Value.map [(Value.str (utf8 "1"), Value.uint64 3)], Value.nil, Value.nil, Value.nil,
      Value.bool true, Value.nil, Value.nil] ++ [])
    ([Value.uint64 7, Value.str (utf8 "Q"), Value.array (List.map Value.str [utf8 "Red"]),
      Value.map [(Value.str (utf8 "1"), Value.uint64 3)], Value.str (utf8 "alice"),
      Value.uint64 1, Value.bool false, Value.bool true, Value.array [], Value.int64 (-1)]
      ++ [Value.str (utf8 "extra")])
    [] [] (by decide) (by decide) (by decide) (by decide)
    rfl rfl rfl rfl rfl (Or.inl rfl) (Or.inl rfl) (fun _ _ => rfl) (fun _ _ => rfl)

/-- C18 fails on the code: outcomes of a successful call on which a handler stops with a
run-time panic.  Slot 1 equal to an empty array (`v[0]` is out of range) or to an array whose
first element is not text (`v[0].(string)` fails) for the four handlers with the rejection
block; an empty outcome (`resp.Data[0]` is out of range) for `handleGetPoll` and `handlePoll`;
slot 0 equal to an empty array or to an array whose first element is not a `uint64` for
`handlePoll`. -/
theorem handlers_panic_on_outcomes :
    (handleVote (constStore [Value.nil, Value.array []])
        (sampleRequest "/vote" "42 2")).result = .panic
      ∧ (handleGetPoll (constStore [Value.nil, Value.array []])
        (sampleRequest "/get-poll" "42")).result = .panic
      ∧ (handleClosePoll (constStore [Value.nil, Value.array [Value.uint64 7]])
        (sampleRequest "/close-poll" "42")).result = .panic
      ∧ (handleDeletePoll (constStore [Value.nil, Value.array [Value.uint64 7]])
        (sampleRequest "/delete-poll" "42")).result = .panic
      ∧ (handleGetPoll (constStore []) (sampleRequest "/get-poll" "42")).result = .panic
      ∧ (handlePoll (constStore []) (sampleRequest "/poll" "\"Q\" \"A\"")).result = .panic
      ∧ (handlePoll (constStore [Value.array []])
        (sampleRequest "/poll" "\"Q\" \"A\"")).result = .panic
      ∧ (handlePoll (constStore [Value.array [Value.str (utf8 "7")]])
        (sampleRequest "/poll" "\"Q\" \"A\"")).result = .panic :=
  ⟨rfl, rfl, rfl, rfl, rfl, rfl, rfl, rfl⟩

/-! ## Claim C17: registering a command twice -/

/-- Replacing the stored command `e` by a command with the same identifier and trigger keeps
the identifiers and the triggers of the list, and the command then found for the trigger has the
identifier of `e`. -/
theorem update_keeps (cmds : List Command) (cnew e : Command)
    (hids : (cmds.map Command.Id).Nodup) (htrig : (cmds.map Command.Trigger).Nodup)
    (hmem : e ∈ cmds) (hnewId : cnew.Id = e.Id) (hnewTr : cnew.Trigger = e.Trigger) :
    (cmds.map fun c => if c.Id = e.Id then cnew else c).map Command.Id = cmds.map Command.Id
      ∧ (cmds.map fun c => if c.Id = e.Id then cnew else c).map Command.Trigger
          = cmds.map Command.Trigger
      ∧ ∃ c, (cmds.map fun c => if c.Id = e.Id then cnew else c).find?
          (fun cmd => cmd.Trigger = e.Trigger) = some c ∧ c.Id = e.Id := by
  have hinjId := List.inj_on_of_nodup_map hids
  have hinjTr := List.inj_on_of_nodup_map htrig
  refine ⟨?_, ?_, ?_⟩
  · rw [List.map_map]
    apply List.map_congr_left
    intro c _
    simp only [Function.comp]
    split
    · rename_i h; exact hnewId.trans h.symm
    · rfl
  · rw [List.map_map]
    apply List.map_congr_left
    intro c hc
    simp only [Function.comp]
    split
    · rename_i h
      have : c = e := hinjId hc hmem h
      rw [this, hnewTr]
    · rfl
  · have hsome : ((cmds.map fun c => if c.Id = e.Id then cnew else c).find?
        (fun cmd => cmd.Trigger = e.Trigger)).isSome = true := by
      rw [List.find?_isSome]
      refine ⟨cnew, ?_, by simpa using hnewTr⟩
      rw [List.mem_map]
      exact ⟨e, hmem, by simp⟩
    obtain ⟨c, hc⟩ := Option.isSome_iff_exists.mp hsome
    refine ⟨c, hc, ?_⟩
    have hcm := List.mem_of_find?_eq_some hc
    have hct : c.Trigger = e.Trigger := by simpa using List.find?_some hc
    rw [List.mem_map] at hcm
    obtain ⟨c0, hc0, hfc⟩ := hcm
    by_cases hid : c0.Id = e.Id
    · rw [if_pos hid] at hfc
      rw [← hfc, hnewId]
    · rw [if_neg hid] at hfc
      subst hfc
      have : c0 = e := hinjTr hc0 hmem hct
      rw [this]

/-- A list of commands with pairwise distinct triggers that stores the trigger `t` has exactly
one command with the trigger `t`. -/
theorem filter_trigger_length (cmds : List Command) (t : GoString)
    (hn : (cmds.map Command.Trigger).Nodup) (hm : t ∈ cmds.map Command.Trigger) :
    (cmds.filter (fun c => c.Trigger = t)).length = 1 := by
  induction cmds with
  | nil => simp at hm
  | cons c l ih =>
    simp only [List.map_cons, List.nodup_cons] at hn
    by_cases hc : c.Trigger = t
    · have hnil : l.filter (fun c => decide (c.Trigger = t)) = [] := by
        rw [List.filter_eq_nil_iff]
        intro a ha hat
        apply hn.1
        rw [List.mem_map]
        exact ⟨a, ha, by rw [hc]; simpa using hat⟩
      rw [List.filter_cons_of_pos (by simpa using hc), hnil]
      rfl
    · rw [List.filter_cons_of_neg (by simpa using hc)]
      apply ih hn.2
      simp only [List.map_cons, List.mem_cons] at hm
      rcases hm with hm | hm
      · exact absurd hm.symm hc
      · exact hm

/-- A run of `registerCommand` on a platform that stores a command with the trigger: no error,
a list and an update request, and the identifiers and triggers of the platform are kept. -/
theorem registerCommand_present (fresh : List Command → GoString) (Title : GoString → GoString)
    (url : GoString) (b : Bot (List Command)) (t : GoString) (handler : CommandHandler)
    (hd : List GoString) (e : Command)
    (hids : (b.platform.map Command.Id).Nodup)
    (htrig : (b.platform.map Command.Trigger).Nodup)
    (hfind : b.platform.find? (fun cmd => cmd.Trigger = t) = some e) :
    (registerCommand (listClient fresh) Title url b t handler hd).err = none
      ∧ (∃ c, (registerCommand (listClient fresh) Title url b t handler hd).calls
          = [.listCommands b.teamId false, .updateCommand c])
      ∧ (registerCommand (listClient fresh) Title url b t handler hd).bot.teamId = b.teamId
      ∧ (registerCommand (listClient fresh) Title url b t handler hd).bot.platform.map Command.Id
          = b.platform.map Command.Id
      ∧ (registerCommand (listClient fresh) Title url b t handler hd).bot.platform.map
          Command.Trigger = b.platform.map Command.Trigger
      ∧ ∃ c, (registerCommand (listClient fresh) Title url b t handler hd).bot.platform.find?
          (fun cmd => cmd.Trigger = t) = some c ∧ c.Id = e.Id := by
  have hmem : e ∈ b.platform := List.mem_of_find?_eq_some hfind
  have het : e.Trigger = t := by simpa using List.find?_some hfind
  subst het
  unfold registerCommand
  simp only [listClient, hfind]
  refine ⟨trivial, ⟨_, rfl⟩, trivial, update_keeps b.platform _ e hids htrig hmem ?_ ?_⟩
  · rfl
  · rfl

/-- A run of `registerCommand` on a platform that stores no command with the trigger: no
error, and a command with the trigger and the fresh identifier is added at the end. -/
theorem registerCommand_absent (fresh : List Command → GoString) (Title : GoString → GoString)
    (url : GoString) (b : Bot (List Command)) (t : GoString) (handler : CommandHandler)
    (hd : List GoString)
    (hfind : b.platform.find? (fun cmd => cmd.Trigger = t) = none) :
    (registerCommand (listClient fresh) Title url b t handler hd).err = none
      ∧ (registerCommand (listClient fresh) Title url b t handler hd).bot.teamId = b.teamId
      ∧ ∃ c, c.Trigger = t ∧ c.Id = fresh b.platform
          ∧ (registerCommand (listClient fresh) Title url b t handler hd).bot.platform
            = b.platform ++ [c] := by
  unfold registerCommand
  simp only [listClient, hfind]
  exact ⟨trivial, trivial, _, rfl, rfl, rfl⟩

/-- C17: idempotent registration on the modelled chat platform.  For every stored list of
commands in which no trigger occurs more than once (and, the identifiers being identifiers, no
identifier occurs more than once, nor is the fresh one among them) and every trigger `t`,
running `registerCommand` for `t` twice returns no error and leaves exactly one command with
the trigger `t`; the second run sends an update and no create; and the identifier of the
command with the trigger `t` after the second run is its identifier after the first. -/
theorem registerCommand_idempotent (fresh : List Command → GoString)
    (Title : GoString → GoString) (url : GoString) (b : Bot (List Command)) (t : GoString)
    (handler1 handler2 : CommandHandler) (hd1 hd2 : List GoString)
    (htrig : (b.platform.map Command.Trigger).Nodup)
    (hids : (b.platform.map Command.Id).Nodup)
    (hfresh : fresh b.platform ∉ b.platform.map Command.Id) :
    (registerTwice fresh Title url b t handler1 handler2 hd1 hd2).1.err = none
      ∧ (registerTwice fresh Title url b t handler1 handler2 hd1 hd2).2.err = none
      ∧ ((registerTwice fresh Title url b t handler1 handler2 hd1 hd2).2.bot.platform.filter
          (fun cmd => cmd.Trigger = t)).length = 1
      ∧ (∃ c, (registerTwice fresh Title url b t handler1 handler2 hd1 hd2).2.calls
          = [.listCommands b.teamId false, .updateCommand c])
      ∧ ∃ c1 c2,
          (registerTwice fresh Title url b t handler1 handler2 hd1 hd2).1.bot.platform.find?
              (fun cmd => cmd.Trigger = t) = some c1
            ∧ (registerTwice fresh Title url b t handler1 handler2 hd1 hd2).2.bot.platform.find?
              (fun cmd => cmd.Trigger = t) = some c2
            ∧ c2.Id = c1.Id := by
  unfold registerTwice
  simp only []
  -- the state after the first run: identifiers and triggers still distinct, `t` stored
  have hfirst : (registerCommand (listClient fresh) Title url b t handler1 hd1).err = none
      ∧ (registerCommand (listClient fresh) Title url b t handler1 hd1).bot.teamId = b.teamId
      ∧ ((registerCommand (listClient fresh) Title url b t handler1 hd1).bot.platform.map
          Command.Id).Nodup
      ∧ ((registerCommand (listClient fresh) Title url b t handler1 hd1).bot.platform.map
          Command.Trigger).Nodup
      ∧ ∃ c1, (registerCommand (listClient fresh) Title url b t handler1 hd1).bot.platform.find?
          (fun cmd => cmd.Trigger = t) = some c1 := by
    cases hfind : b.platform.find? (fun cmd => cmd.Trigger = t) with
    | some e =>
      obtain ⟨h1, -, h3, h4, h5, c, hc, -⟩ :=
        registerCommand_present fresh Title url b t handler1 hd1 e hids htrig hfind
      exact ⟨h1, h3, by rw [h4]; exact hids, by rw [h5]; exact htrig, c, hc⟩
    | none =>
      obtain ⟨h1, h2, c, hct, hci, hp⟩ :=
        registerCommand_absent fresh Title url b t handler1 hd1 hfind
      have hnot : t ∉ b.platform.map Command.Trigger := by
        intro hmem
        rw [List.mem_map] at hmem
        obtain ⟨c0, hc0, hc0t⟩ := hmem
        have := List.find?_eq_none.mp hfind c0 hc0
        simp [hc0t] at this
      refine ⟨h1, h2, ?_, ?_, c, ?_⟩
      · rw [hp, List.map_append, List.map_singleton, hci]
        exact List.Nodup.append hids (List.nodup_singleton _)
          (by simpa [List.Disjoint] using hfresh)
      · rw [hp, List.map_append, List.map_singleton, hct]
        exact List.Nodup.append htrig (List.nodup_singleton _)
          (by simpa [List.Disjoint] using hnot)
      · rw [hp, List.find?_append, hfind]
        simp [hct]
  obtain ⟨herr1, hteam, hids1, htrig1, c1, hc1⟩ := hfirst
  obtain ⟨herr2, ⟨cu, hcalls⟩, -, -, htr2, c2, hc2, hid2⟩ :=
    registerCommand_present fresh Title url
      (registerCommand (listClient fresh) Title url b t handler1 hd1).bot t handler2 hd2 c1
      hids1 htrig1 hc1
  refine ⟨herr1, herr2, ?_, ⟨cu, by rw [hcalls, hteam]⟩, c1, c2, hc1, hc2, hid2⟩
  apply filter_trigger_length _ _ (by rw [htr2]; exact htrig1)
  rw [htr2, List.mem_map]
  exact ⟨c1, List.mem_of_find?_eq_some hc1, by simpa using List.find?_some hc1⟩

/-- C17 on two concrete platforms: one that stores no command, and one that already stores a
command with the trigger `poll`. -/
theorem registerCommand_idempotent_witness :
    ((registerTwice sampleFresh id (utf8 "http://bot:8088") (sampleBot []) (utf8 "poll")
        handleHelpless handleHelpless [] []).2.bot.platform.filter
        (fun cmd => cmd.Trigger = utf8 "poll")).length = 1
      ∧ ((registerTwice sampleFresh id (utf8 "http://bot:8088")
        (sampleBot [sampleCommand "a1" "vote", sampleCommand "a2" "poll"]) (utf8 "poll")
        handleHelpless handleHelpless [] [utf8 "[id]"]).2.bot.platform.filter
        (fun cmd => cmd.Trigger = utf8 "poll")).length = 1 :=
  ⟨(registerCommand_idempotent sampleFresh id (utf8 "http://bot:8088") (sampleBot [])
      (utf8 "poll") handleHelpless handleHelpless [] [] (by decide) (by decide)
      (by decide)).2.2.1,
   (registerCommand_idempotent sampleFresh id (utf8 "http://bot:8088")
      (sampleBot [sampleCommand "a1" "vote", sampleCommand "a2" "poll"]) (utf8 "poll")
      handleHelpless handleHelpless [] [utf8 "[id]"] (by decide) (by decide) (by decide)).2.2.1⟩

end VoteBot
